import Mathlib

/-!
Verification of the payroll CSV ingestion and reporting service (`src/index.js`)
against its natural-language specification.

The JavaScript program is shallowly embedded: strings are Lean `String`s
manipulated through their character lists, JS numbers that the program uses
(integer employee ids, decimal(5,2) hours, integer pay rates) are modelled
exactly, with hours carried as an integer count of hundredths; the single
non-number value that reaches the report output, `NaN`, is modelled by a
dedicated constructor of `JSAmount`.  Stateful endpoint handlers become pure
functions from their inputs (uploaded file, set of already-stored report ids,
stored ledger rows) to a response value recording the HTTP status, the body
message, whether the staged upload artifact was unlinked, and the rows durably
persisted.
-/

namespace Payroll

/-! ### Decimal digit strings, modelling JS `Number.prototype.toString` -/

/-- The character for the decimal digit `n` (`n < 10`). -/
def digitChar (n : Nat) : Char :=
  match n with
  | 0 => '0' | 1 => '1' | 2 => '2' | 3 => '3' | 4 => '4'
  | 5 => '5' | 6 => '6' | 7 => '7' | 8 => '8' | 9 => '9'
  | _ => '*'

/-- Fuel-driven most-significant-first decimal digit list of `n`. -/
def natDigsAux : Nat → Nat → List Char
  | 0, _ => []
  | fuel + 1, n =>
    if n < 10 then [digitChar n]
    else natDigsAux fuel (n / 10) ++ [digitChar (n % 10)]

/-- Decimal digits of `n`, most significant first. -/
def natDigs (n : Nat) : List Char := natDigsAux (n + 1) n

/-- Model of JS `Number.prototype.toString()` on a nonnegative integer:
the canonical decimal representation without padding or sign. -/
def jsNumToString (n : Nat) : String := ⟨natDigs n⟩

/-- Left-pad a character list with zeros to length `k`
(identity when the list is already at least that long). -/
def padZeros (k : Nat) (l : List Char) : List Char :=
  List.replicate (k - l.length) '0' ++ l

/-- Model of JS `String.prototype.padStart(2, '0')`. -/
def jsPadStart2 (s : String) : String := ⟨padZeros 2 s.data⟩

/-- One step of reading a decimal number from characters: digits accumulate,
any other character is skipped. -/
def digStep (n : Nat) (c : Char) : Nat :=
  if c.isDigit then 10 * n + (c.toNat - 48) else n

/-- Numeric value read off a string's digits.  On an all-digit string this is
exactly JS `ToNumber` (used by the report comparator's `a - b` coercion on
canonical integer strings). -/
def jsStrNum (s : String) : Nat := s.data.foldl digStep 0

/-- Model of the numeric value of `new Date(s)` for the canonical ISO strings
`YYYY-MM-DD` produced by the pay-period resolver: reading the digits gives
`y * 10000 + m * 100 + d`, which is strictly increasing in `(y, m, d)` exactly
as the epoch-milliseconds value is, so the report comparator computes the
same ordering. -/
def jsDateNum (s : String) : Nat := s.data.foldl digStep 0

theorem natDigsAux_congr : ∀ n f g, n < f → n < g → natDigsAux f n = natDigsAux g n := by
  intro n
  induction n using Nat.strong_induction_on with
  | _ n ih =>
    intro f g hf hg
    match f, g with
    | f' + 1, g' + 1 =>
      by_cases h10 : n < 10
      · simp [natDigsAux, h10]
      · have hdiv : n / 10 < n := Nat.div_lt_self (by omega) (by omega)
        simp only [natDigsAux, if_neg h10]
        rw [ih (n / 10) hdiv (f') (g') (by omega) (by omega)]

theorem natDigs_lt (n : Nat) (h : n < 10) : natDigs n = [digitChar n] := by
  simp [natDigs, natDigsAux, h]

theorem natDigs_ge (n : Nat) (h : ¬ n < 10) :
    natDigs n = natDigs (n / 10) ++ [digitChar (n % 10)] := by
  have hdiv : n / 10 < n := Nat.div_lt_self (by omega) (by omega)
  have h1 : natDigsAux (n + 1) n
      = if n < 10 then [digitChar n] else natDigsAux n (n / 10) ++ [digitChar (n % 10)] := rfl
  rw [natDigs, h1, if_neg h, natDigs,
    natDigsAux_congr (n / 10) n (n / 10 + 1) hdiv (by omega)]

theorem digitChar_isDigit (n : Nat) (h : n < 10) : (digitChar n).isDigit = true := by
  interval_cases n <;> decide

theorem digitChar_toNat (n : Nat) (h : n < 10) : (digitChar n).toNat - 48 = n := by
  interval_cases n <;> decide

theorem digStep_digitChar (acc n : Nat) (h : n < 10) :
    digStep acc (digitChar n) = 10 * acc + n := by
  rw [digStep, if_pos (digitChar_isDigit n h), digitChar_toNat n h]

/-- Folding the digit reader over the canonical digits of `n` starting from
`acc` yields `acc * 10 ^ (number of digits) + n`. -/
theorem foldl_digStep_natDigs (n : Nat) :
    ∀ acc, (natDigs n).foldl digStep acc = acc * 10 ^ (natDigs n).length + n := by
  induction n using Nat.strong_induction_on with
  | _ n ih =>
    intro acc
    by_cases h10 : n < 10
    · rw [natDigs_lt n h10]
      simp [List.foldl, digStep_digitChar acc n h10]
      ring
    · have hdiv : n / 10 < n := Nat.div_lt_self (by omega) (by omega)
      rw [natDigs_ge n h10]
      rw [List.foldl_append, ih (n / 10) hdiv acc]
      simp [List.foldl, digStep_digitChar _ (n % 10) (Nat.mod_lt n (by omega))]
      have : 10 * (acc * 10 ^ (natDigs (n / 10)).length + n / 10) + n % 10
          = acc * (10 ^ (natDigs (n / 10)).length * 10) + (10 * (n / 10) + n % 10) := by ring
      rw [this, Nat.div_add_mod]
      ring_nf

/-- Round trip: JS `ToNumber` recovers the integer rendered by JS
`toString`. -/
theorem jsStrNum_jsNumToString (n : Nat) : jsStrNum (jsNumToString n) = n := by
  have h := foldl_digStep_natDigs n 0
  simpa [jsStrNum, jsNumToString] using h

theorem jsNumToString_injective : Function.Injective jsNumToString := by
  intro a b h
  have := congrArg jsStrNum h
  rwa [jsStrNum_jsNumToString, jsStrNum_jsNumToString] at this

theorem natDigs_ne_nil (n : Nat) : natDigs n ≠ [] := by
  by_cases h10 : n < 10
  · rw [natDigs_lt n h10]; simp
  · rw [natDigs_ge n h10]; simp

theorem natDigs_digits (n : Nat) : ∀ c ∈ natDigs n, c.isDigit = true := by
  induction n using Nat.strong_induction_on with
  | _ n ih =>
    intro c hc
    by_cases h10 : n < 10
    · rw [natDigs_lt n h10] at hc
      simp at hc
      subst hc
      exact digitChar_isDigit n h10
    · have hdiv : n / 10 < n := Nat.div_lt_self (by omega) (by omega)
      rw [natDigs_ge n h10] at hc
      rcases List.mem_append.1 hc with h | h
      · exact ih (n / 10) hdiv c h
      · simp at h
        subst h
        exact digitChar_isDigit (n % 10) (Nat.mod_lt n (by omega))

theorem length_natDigs_ge (k : Nat) : ∀ n, 10 ^ k ≤ n → k + 1 ≤ (natDigs n).length := by
  induction k with
  | zero =>
    intro n _
    have := natDigs_ne_nil n
    cases h : natDigs n with
    | nil => exact absurd h this
    | cons a l => simp
  | succ k ih =>
    intro n hn
    have h10 : ¬ n < 10 := by
      have : (10:Nat) ≤ 10 ^ (k + 1) := by
        calc (10:Nat) = 10 ^ 1 := by ring
        _ ≤ 10 ^ (k + 1) := Nat.pow_le_pow_right (by omega) (by omega)
      omega
    rw [natDigs_ge n h10]
    have hdivk : 10 ^ k ≤ n / 10 := by
      rw [Nat.le_div_iff_mul_le (by omega : 0 < 10)]
      calc 10 ^ k * 10 = 10 ^ (k + 1) := by ring
      _ ≤ n := hn
    have := ih (n / 10) hdivk
    simp [List.length_append]
    omega

theorem length_natDigs_le (k : Nat) (hk : 1 ≤ k) :
    ∀ n, n < 10 ^ k → (natDigs n).length ≤ k := by
  induction k with
  | zero => omega
  | succ k ih =>
    intro n hn
    by_cases h10 : n < 10
    · rw [natDigs_lt n h10]; simp
    · have hdiv : n / 10 < 10 ^ k := by
        rw [Nat.div_lt_iff_lt_mul (by omega)]
        calc n < 10 ^ (k + 1) := hn
        _ = 10 ^ k * 10 := by ring
      have hk1 : 1 ≤ k := by
        by_contra hk0
        have : k = 0 := by omega
        subst this
        simp at hdiv
        omega
      rw [natDigs_ge n h10]
      have := ih hk1 (n / 10) hdiv
      simp [List.length_append]
      omega

theorem natDigs_length_two (n : Nat) (h1 : 10 ≤ n) (h2 : n < 100) :
    (natDigs n).length = 2 := by
  have hge := length_natDigs_ge 1 n (by simpa using h1)
  have hle := length_natDigs_le 2 (by omega) n (by simpa using h2)
  omega

theorem natDigs_length_four (n : Nat) (h1 : 1000 ≤ n) (h2 : n ≤ 9999) :
    (natDigs n).length = 4 := by
  have hge := length_natDigs_ge 3 n (by norm_num; omega)
  have hle := length_natDigs_le 4 (by omega) n (by norm_num; omega)
  omega

/-! ### Calendar dates and the pay-period resolver (`getPayPeriod`) -/

/-- A calendar date as the JS `Date` accessors expose it to `getPayPeriod`:
`year` from `getFullYear()`, `month` from `getMonth() + 1` (1-12),
`day` from `getDate()` (1-31). -/
structure CalDate where
  year : Nat
  month : Nat
  day : Nat
deriving DecidableEq, Repr

/-- Gregorian leap-year rule, as implemented by the JS `Date` calendar. -/
def isLeap (y : Nat) : Bool := y % 4 = 0 && (y % 100 != 0 || y % 400 = 0)

/-- Number of days in a month; models `new Date(year, month, 0).getDate()`,
which yields the last calendar day of `month` (1-12) in `year`. -/
def daysInMonth (y m : Nat) : Nat :=
  if m = 2 then (if isLeap y then 29 else 28)
  else if m = 4 ∨ m = 6 ∨ m = 9 ∨ m = 11 then 30
  else 31

/-- `d` is a real calendar date. -/
def CalDate.Valid (d : CalDate) : Prop :=
  1 ≤ d.month ∧ d.month ≤ 12 ∧ 1 ≤ d.day ∧ d.day ≤ daysInMonth d.year d.month

instance (d : CalDate) : Decidable d.Valid := by
  unfold CalDate.Valid
  exact inferInstance

/-- The pay-period value returned by the resolver: two rendered date strings. -/
structure PayPeriod where
  startDate : String
  endDate : String
deriving DecidableEq, Repr

/-- The template-literal rendering shared by all four period boundary strings:
the year via JS number coercion, a dash, the month padded with
`padStart(2, '0')`, a dash, and the given day string. -/
def ymdRender (y m : Nat) (dayStr : String) : String :=
  jsNumToString y ++ "-" ++ jsPadStart2 (jsNumToString m) ++ "-" ++ dayStr

/-- `getPayPeriod` from `src/index.js`: days 1-15 map to the 1st-15th,
later days map to the 16th through the last day of the month. -/
def getPayPeriod (d : CalDate) : PayPeriod :=
  if d.day ≤ 15 then
    { startDate := ymdRender d.year d.month "01"
      endDate := ymdRender d.year d.month "15" }
  else
    { startDate := ymdRender d.year d.month "16"
      endDate := ymdRender d.year d.month (jsNumToString (daysInMonth d.year d.month)) }

/-- Rendering of a date in ISO `YYYY-MM-DD` form, following the
specification's words: four year digits, two month digits, two day digits,
zero padded, separated by dashes. -/
def specIso (y m dv : Nat) : String :=
  ⟨padZeros 4 (natDigs y)⟩ ++ "-" ++ ⟨padZeros 2 (natDigs m)⟩ ++ "-" ++ ⟨padZeros 2 (natDigs dv)⟩

theorem daysInMonth_bounds (y m : Nat) (h1 : 1 ≤ m) (h2 : m ≤ 12) :
    28 ≤ daysInMonth y m ∧ daysInMonth y m ≤ 31 := by
  unfold daysInMonth
  interval_cases m
  all_goals simp
  all_goals split <;> omega

theorem digStep_nondigit (acc : Nat) (c : Char) (h : c.isDigit = false) :
    digStep acc c = acc := by
  simp [digStep, h]

theorem foldl_digStep_padZeros2 (m : Nat) (h : m < 100) (acc : Nat) :
    (padZeros 2 (natDigs m)).foldl digStep acc = acc * 100 + m := by
  by_cases h10 : m < 10
  · have hd : natDigs m = [digitChar m] := natDigs_lt m h10
    have hpad : padZeros 2 (natDigs m) = ['0', digitChar m] := by
      rw [hd]; rfl
    rw [hpad]
    have h0 : digStep acc '0' = 10 * acc := by
      have := digStep_digitChar acc 0 (by omega)
      simpa using this
    simp [List.foldl, h0, digStep_digitChar _ m h10]
    ring
  · have hlen : (natDigs m).length = 2 := natDigs_length_two m (by omega) h
    have hpad : padZeros 2 (natDigs m) = natDigs m := by
      unfold padZeros
      rw [hlen]
      simp
    rw [hpad, foldl_digStep_natDigs m acc, hlen]
    ring

theorem data_mk (l : List Char) : (String.mk l).data = l := rfl

theorem jsDateNum_ymdRender (y m dv : Nat) (hm : m < 100) (hdv : dv < 100) :
    jsDateNum (ymdRender y m ⟨padZeros 2 (natDigs dv)⟩) = (y * 100 + m) * 100 + dv := by
  unfold jsDateNum ymdRender
  have hdata : (jsNumToString y ++ "-" ++ jsPadStart2 (jsNumToString m) ++ "-"
      ++ (⟨padZeros 2 (natDigs dv)⟩ : String)).data
      = natDigs y ++ ['-'] ++ padZeros 2 (natDigs m) ++ ['-'] ++ padZeros 2 (natDigs dv) := by
    simp [String.data_append, jsNumToString, jsPadStart2, data_mk]
  rw [hdata]
  rw [List.foldl_append, List.foldl_append, List.foldl_append, List.foldl_append]
  have hy : (natDigs y).foldl digStep 0 = y := by
    have := foldl_digStep_natDigs y 0
    simpa using this
  rw [hy]
  have hdash : ∀ a : Nat, List.foldl digStep a ['-'] = a := by
    intro a
    simp [List.foldl, digStep_nondigit a '-' (by decide)]
  simp only [hdash]
  rw [foldl_digStep_padZeros2 m hm y, foldl_digStep_padZeros2 dv hdv _]

theorem jsPadStart2_jsNumToString (m : Nat) :
    jsPadStart2 (jsNumToString m) = ⟨padZeros 2 (natDigs m)⟩ := rfl

theorem jsNumToString_two_digits (v : Nat) (h1 : 10 ≤ v) (h2 : v < 100) :
    jsNumToString v = ⟨padZeros 2 (natDigs v)⟩ := by
  unfold jsNumToString padZeros
  rw [natDigs_length_two v h1 h2]
  simp

theorem ymdRender_eq_specIso (y m dv : Nat) (hy1 : 1000 ≤ y) (hy2 : y ≤ 9999) :
    ymdRender y m ⟨padZeros 2 (natDigs dv)⟩ = specIso y m dv := by
  unfold ymdRender specIso
  rw [jsPadStart2_jsNumToString]
  have : jsNumToString y = (⟨padZeros 4 (natDigs y)⟩ : String) := by
    unfold jsNumToString padZeros
    rw [natDigs_length_four y hy1 hy2]
    simp
  rw [this]

/-! ### The payroll aggregator (`GET /report`)

JS float arithmetic on the in-range currency values of this program is exact,
so amounts are modelled as an exact count of cents; `hours_worked` is a
`DECIMAL(5,2)` column and is carried as an integer count of hundredths of an
hour.  The one non-number that the report can produce, `NaN` (from the
`undefined` rate of a job group absent from `jobGroupRates`), is a separate
constructor, with JS's absorbing `NaN` arithmetic. -/

/-- A JS number as the report accumulator sees it: an exact amount in cents,
or `NaN`. -/
inductive JSAmount where
  | num (cents : Nat)
  | nan
deriving DecidableEq, Repr

/-- JS `+` on accumulator values: `NaN` absorbs. -/
def JSAmount.add : JSAmount → JSAmount → JSAmount
  | num a, num b => num (a + b)
  | _, _ => nan

/-- The `jobGroupRates` table of `src/index.js`: `{ A: 30, B: 20 }`.
`none` models the `undefined` produced by indexing with any other group. -/
def jobGroupRates (g : String) : Option Nat :=
  if g = "A" then some 30 else if g = "B" then some 20 else none

/-- JS `hoursWorked * payRate` in cents: multiplying by an `undefined` rate
gives `NaN`. -/
def rateMul (h100 : Nat) : Option Nat → JSAmount
  | some r => .num (h100 * r)
  | none => .nan

/-- One stored ledger row as the report query returns it:
its calendar date, hours worked in hundredths (`DECIMAL(5,2)`),
integer employee id, and job-group code. -/
structure Entry where
  date : CalDate
  hours100 : Nat
  employeeId : Nat
  jobGroup : String
deriving DecidableEq, Repr

/-- The amount one entry contributes: `hoursWorked * jobGroupRates[jobGroup]`. -/
def entryAmt (e : Entry) : JSAmount := rateMul e.hours100 (jobGroupRates e.jobGroup)

/-- The accumulation key of an entry.  The code keys `employeePayData` by the
string `` `${employeeId}-${startDate}-${endDate}` ``; for the integer
employee ids and the fixed-shape period strings of this program that string is
in bijection with the pair `(employeeId, payPeriod)`, which we use as the key
directly. -/
def keyOf (e : Entry) : Nat × PayPeriod := (e.employeeId, getPayPeriod e.date)

/-- Lookup in the accumulation object, viewed as an association list in
insertion order (JS objects preserve string-key insertion order). -/
def findAmt : List ((Nat × PayPeriod) × JSAmount) → (Nat × PayPeriod) → Option JSAmount
  | [], _ => none
  | p :: ps, k => if p.1 = k then some p.2 else findAmt ps k

/-- Processing one row of `timekeepingData`: create the key's accumulator at
`0` if absent, then `+=` the row's amount. -/
def accStep (m : List ((Nat × PayPeriod) × JSAmount)) (e : Entry) :
    List ((Nat × PayPeriod) × JSAmount) :=
  match findAmt m (keyOf e) with
  | some _ => m.map (fun p => if p.1 = keyOf e then (p.1, p.2.add (entryAmt e)) else p)
  | none => m ++ [(keyOf e, (JSAmount.num 0).add (entryAmt e))]

/-- The `forEach` accumulation loop over all stored entries. -/
def accumulate (l : List Entry) : List ((Nat × PayPeriod) × JSAmount) :=
  l.foldl accStep []

/-- `Number.prototype.toFixed(2)` on an exact amount of `c` cents. -/
def jsToFixed2 (c : Nat) : String :=
  jsNumToString (c / 100) ++ "." ++ jsPadStart2 (jsNumToString (c % 100))

/-- `amount.toFixed(2)`: `NaN.toFixed(2)` is the string `"NaN"`. -/
def renderAmount : JSAmount → String
  | .num c => jsToFixed2 c
  | .nan => "NaN"

/-- One line of the rendered report. -/
structure PayLine where
  employeeId : String
  payPeriod : PayPeriod
  amountPaid : String
deriving DecidableEq, Repr

/-- Rendering one accumulator bucket: employee id via `.toString()`, the pay
period object, and `` `$${amountPaid.toFixed(2)}` ``. -/
def mkLineOf (k : Nat × PayPeriod) (a : JSAmount) : PayLine :=
  { employeeId := jsNumToString k.1, payPeriod := k.2, amountPaid := "$" ++ renderAmount a }

/-- The `employeeReports` array before sorting, in object insertion order. -/
def reportLines (l : List Entry) : List PayLine :=
  (accumulate l).map (fun p => mkLineOf p.1 p.2)

/-- The sort comparator of `src/index.js`: date difference for equal employee
id strings, numeric-coercion difference otherwise. -/
def cmpLine (a b : PayLine) : Int :=
  if a.employeeId = b.employeeId then
    (jsDateNum a.payPeriod.startDate : Int) - (jsDateNum b.payPeriod.startDate : Int)
  else
    (jsStrNum a.employeeId : Int) - (jsStrNum b.employeeId : Int)

/-- Nonpositive comparator result, the ordering `Array.prototype.sort` obeys. -/
def lineLe (a b : PayLine) : Bool := cmpLine a b ≤ 0

/-- Stable insertion into a sorted list, the building block of our model of
`Array.prototype.sort`. -/
def insertSorted {α : Type} (le : α → α → Bool) (a : α) : List α → List α
  | [] => [a]
  | b :: l => if le a b then a :: b :: l else b :: insertSorted le a l

/-- Model of `Array.prototype.sort(comparator)`: a stable, comparator-sorted
permutation of the input (realized as insertion sort, which is such a
permutation for the consistent comparators this program uses). -/
def jsSortBy {α : Type} (le : α → α → Bool) : List α → List α
  | [] => []
  | a :: l => insertSorted le a (jsSortBy le l)

/-- The full `GET /report` payload: accumulate, render, sort. -/
def employeeReports (l : List Entry) : List PayLine :=
  jsSortBy lineLe (reportLines l)

/-- Specification-side total: the sum, over the entries of one
`(employeeId, payPeriod)` key, of hours worked times the job-group rate,
in cents. -/
def sumCents (l : List Entry) (k : Nat × PayPeriod) : Nat :=
  ((l.filter (fun e => decide (keyOf e = k))).map
    (fun e => e.hours100 * ((jobGroupRates e.jobGroup).getD 0))).sum

/-- The accumulator total of one key, in JS arithmetic. -/
def sumAmt (l : List Entry) (k : Nat × PayPeriod) : JSAmount :=
  (l.filter (fun e => decide (keyOf e = k))).foldl
    (fun a e => a.add (entryAmt e)) (JSAmount.num 0)

/-- Specification-side order of report lines: primary key the employee id
compared numerically, secondary key the period start date chronologically. -/
def specLe (a b : PayLine) : Prop :=
  jsStrNum a.employeeId < jsStrNum b.employeeId ∨
    (jsStrNum a.employeeId = jsStrNum b.employeeId ∧
      jsDateNum a.payPeriod.startDate ≤ jsDateNum b.payPeriod.startDate)

instance (a b : PayLine) : Decidable (specLe a b) := by
  unfold specLe
  exact inferInstance

theorem JSAmount.add_zero_left (a : JSAmount) : (JSAmount.num 0).add a = a := by
  cases a <;> simp [JSAmount.add]

theorem JSAmount.add_comm (a b : JSAmount) : a.add b = b.add a := by
  cases a <;> cases b <;> simp [JSAmount.add, Nat.add_comm]

theorem JSAmount.add_right_swap (a : JSAmount) (x y : JSAmount) :
    (a.add x).add y = (a.add y).add x := by
  cases a <;> cases x <;> cases y <;> simp [JSAmount.add, Nat.add_right_comm]

/-! ### Properties of the accumulation loop -/

/-- Partial accumulator total of key `k` over `l`, starting from `a`. -/
def foldAmt (l : List Entry) (a : JSAmount) (k : Nat × PayPeriod) : JSAmount :=
  (l.filter (fun e => decide (keyOf e = k))).foldl (fun a e => a.add (entryAmt e)) a

theorem foldAmt_nil (a : JSAmount) (k : Nat × PayPeriod) : foldAmt [] a k = a := rfl

theorem foldAmt_cons (e : Entry) (l : List Entry) (a : JSAmount) (k : Nat × PayPeriod) :
    foldAmt (e :: l) a k =
      if keyOf e = k then foldAmt l (a.add (entryAmt e)) k else foldAmt l a k := by
  unfold foldAmt
  by_cases h : keyOf e = k <;> simp [h]

theorem sumAmt_eq_foldAmt (l : List Entry) (k : Nat × PayPeriod) :
    sumAmt l k = foldAmt l (JSAmount.num 0) k := rfl

theorem findAmt_map_update (m : List ((Nat × PayPeriod) × JSAmount))
    (k0 k : Nat × PayPeriod) (x : JSAmount) :
    findAmt (m.map (fun p => if p.1 = k0 then (p.1, p.2.add x) else p)) k
      = if k = k0 then (findAmt m k).map (fun a => a.add x) else findAmt m k := by
  induction m with
  | nil => simp [findAmt]
  | cons p ps ih =>
    simp only [List.map_cons]
    by_cases hp : p.1 = k0
    · by_cases hk : k = k0
      · subst hk
        simp [findAmt, hp, ih]
      · have hk' : ¬ (k0 = k) := fun h => hk h.symm
        simp [findAmt, hp, hk, hk', ih]
    · by_cases hpk : p.1 = k
      · have hkk0 : ¬ (k = k0) := fun h => hp (hpk.trans h)
        simp [findAmt, hp, hpk, hkk0]
      · simp [findAmt, hp, hpk, ih]

theorem findAmt_append_of_some (m l' : List ((Nat × PayPeriod) × JSAmount))
    (k : Nat × PayPeriod) (a : JSAmount) (h : findAmt m k = some a) :
    findAmt (m ++ l') k = some a := by
  induction m with
  | nil => simp [findAmt] at h
  | cons p ps ih =>
    by_cases hp : p.1 = k
    · simp only [findAmt, if_pos hp] at h
      simp [findAmt, hp, h]
    · simp only [findAmt, if_neg hp] at h
      simp [findAmt, hp, ih h]

theorem findAmt_append_of_none (m : List ((Nat × PayPeriod) × JSAmount))
    (k0 k : Nat × PayPeriod) (v : JSAmount) (h : findAmt m k = none) :
    findAmt (m ++ [(k0, v)]) k = if k0 = k then some v else none := by
  induction m with
  | nil => simp [findAmt]
  | cons p ps ih =>
    by_cases hp : p.1 = k
    · simp [findAmt, hp] at h
    · simp only [findAmt, if_neg hp] at h
      simp [findAmt, hp, ih h]

theorem map_fst_update (m : List ((Nat × PayPeriod) × JSAmount))
    (k0 : Nat × PayPeriod) (x : JSAmount) :
    (m.map (fun p => if p.1 = k0 then (p.1, p.2.add x) else p)).map Prod.fst
      = m.map Prod.fst := by
  induction m with
  | nil => rfl
  | cons p ps ih =>
    by_cases hp : p.1 = k0 <;> simp [hp, ih]

theorem findAmt_eq_none_iff (m : List ((Nat × PayPeriod) × JSAmount)) (k : Nat × PayPeriod) :
    findAmt m k = none ↔ k ∉ m.map Prod.fst := by
  induction m with
  | nil => simp [findAmt]
  | cons p ps ih =>
    by_cases hp : p.1 = k
    · simp [findAmt, hp]
    · simp only [findAmt, if_neg hp, List.map_cons, List.mem_cons]
      rw [ih]
      constructor
      · intro h hor
        rcases hor with h1 | h2
        · exact hp h1.symm
        · exact h h2
      · intro h h2
        exact h (Or.inr h2)

theorem mem_keys_accStep (m : List ((Nat × PayPeriod) × JSAmount)) (e : Entry)
    (k : Nat × PayPeriod) :
    k ∈ (accStep m e).map Prod.fst ↔ k ∈ m.map Prod.fst ∨ k = keyOf e := by
  cases h : findAmt m (keyOf e) with
  | none => simp [accStep, h, map_fst_update, List.mem_append]
  | some a =>
    have hmem : keyOf e ∈ m.map Prod.fst := by
      by_contra hmem
      rw [← findAmt_eq_none_iff] at hmem
      rw [h] at hmem
      exact Option.noConfusion hmem
    simp only [accStep, h, map_fst_update]
    constructor
    · exact Or.inl
    · rintro (hk | rfl)
      · exact hk
      · exact hmem

theorem nodup_keys_accStep (m : List ((Nat × PayPeriod) × JSAmount)) (e : Entry)
    (h : (m.map Prod.fst).Nodup) : ((accStep m e).map Prod.fst).Nodup := by
  cases hf : findAmt m (keyOf e) with
  | none =>
    have hnot : keyOf e ∉ m.map Prod.fst := (findAmt_eq_none_iff m (keyOf e)).1 hf
    simp [accStep, hf, List.nodup_append, h, hnot]
  | some a => simp only [accStep, hf, map_fst_update]; exact h

theorem findAmt_accStep_ne (m : List ((Nat × PayPeriod) × JSAmount)) (e : Entry)
    (k : Nat × PayPeriod) (hk : k ≠ keyOf e) :
    findAmt (accStep m e) k = findAmt m k := by
  cases hf : findAmt m (keyOf e) with
  | some a =>
    simp only [accStep, hf]
    rw [findAmt_map_update, if_neg hk]
  | none =>
    simp only [accStep, hf]
    cases hm : findAmt m k with
    | some a => exact findAmt_append_of_some m _ k a hm
    | none =>
      rw [findAmt_append_of_none m _ k _ hm,
        if_neg (fun h : keyOf e = k => hk h.symm)]

theorem findAmt_accStep_eq_some (m : List ((Nat × PayPeriod) × JSAmount)) (e : Entry)
    (a : JSAmount) (hm : findAmt m (keyOf e) = some a) :
    findAmt (accStep m e) (keyOf e) = some (a.add (entryAmt e)) := by
  simp only [accStep, hm]
  rw [findAmt_map_update, if_pos rfl, hm]
  rfl

theorem findAmt_accStep_eq_none (m : List ((Nat × PayPeriod) × JSAmount)) (e : Entry)
    (hm : findAmt m (keyOf e) = none) :
    findAmt (accStep m e) (keyOf e) = some ((JSAmount.num 0).add (entryAmt e)) := by
  simp only [accStep, hm]
  rw [findAmt_append_of_none m _ _ _ hm, if_pos rfl]

theorem findAmt_foldl_some (l : List Entry) :
    ∀ (m : List ((Nat × PayPeriod) × JSAmount)) (k : Nat × PayPeriod) (a : JSAmount),
      findAmt m k = some a →
      findAmt (l.foldl accStep m) k = some (foldAmt l a k) := by
  induction l with
  | nil =>
    intro m k a h
    simpa [foldAmt_nil] using h
  | cons e l ih =>
    intro m k a h
    rw [List.foldl_cons]
    by_cases hk : k = keyOf e
    · subst hk
      have h2 := findAmt_accStep_eq_some m e a h
      rw [ih (accStep m e) (keyOf e) (a.add (entryAmt e)) h2, foldAmt_cons, if_pos rfl]
    · have h2 : findAmt (accStep m e) k = some a := by
        rw [findAmt_accStep_ne m e k hk]; exact h
      rw [ih (accStep m e) k a h2, foldAmt_cons,
        if_neg (fun hh : keyOf e = k => hk hh.symm)]

theorem findAmt_foldl_none (l : List Entry) :
    ∀ (m : List ((Nat × PayPeriod) × JSAmount)) (k : Nat × PayPeriod),
      findAmt m k = none →
      findAmt (l.foldl accStep m) k =
        if k ∈ l.map keyOf then some (foldAmt l (JSAmount.num 0) k) else none := by
  induction l with
  | nil =>
    intro m k h
    simpa using h
  | cons e l ih =>
    intro m k h
    rw [List.foldl_cons]
    by_cases hk : k = keyOf e
    · subst hk
      have h2 := findAmt_accStep_eq_none m e h
      rw [findAmt_foldl_some l (accStep m e) (keyOf e) _ h2, foldAmt_cons, if_pos rfl,
        if_pos (by simp)]
    · have h2 : findAmt (accStep m e) k = none := by
        rw [findAmt_accStep_ne m e k hk]; exact h
      rw [ih (accStep m e) k h2]
      have hiff : k ∈ List.map keyOf (e :: l) ↔ k ∈ List.map keyOf l := by
        simp only [List.map_cons, List.mem_cons]
        constructor
        · rintro (h1 | h1)
          · exact absurd h1 hk
          · exact h1
        · exact Or.inr
      rw [foldAmt_cons, if_neg (fun hh : keyOf e = k => hk hh.symm)]
      simp only [hiff]

theorem findAmt_accumulate (l : List Entry) (k : Nat × PayPeriod) :
    findAmt (accumulate l) k =
      if k ∈ l.map keyOf then some (sumAmt l k) else none := by
  have h := findAmt_foldl_none l [] k (by simp [findAmt])
  simp only [accumulate]
  rw [h, sumAmt_eq_foldAmt]

theorem nodup_keys_accumulate (l : List Entry) :
    ((accumulate l).map Prod.fst).Nodup := by
  have : ∀ m, (List.map Prod.fst m).Nodup → ((l.foldl accStep m).map Prod.fst).Nodup := by
    induction l with
    | nil => intro m h; exact h
    | cons e l ih =>
      intro m h
      exact ih (accStep m e) (nodup_keys_accStep m e h)
  exact this [] (by simp)

theorem mem_keys_accumulate (l : List Entry) (k : Nat × PayPeriod) :
    k ∈ (accumulate l).map Prod.fst ↔ k ∈ l.map keyOf := by
  constructor
  · intro h
    by_contra hmem
    have hnone : findAmt (accumulate l) k = none := by
      rw [findAmt_accumulate, if_neg hmem]
    exact ((findAmt_eq_none_iff (accumulate l) k).1 hnone) h
  · intro h
    by_contra hmem
    have hnone := (findAmt_eq_none_iff (accumulate l) k).2 hmem
    rw [findAmt_accumulate, if_pos h] at hnone
    exact Option.noConfusion hnone

theorem findAmt_some_iff_mem (m : List ((Nat × PayPeriod) × JSAmount)) :
    (m.map Prod.fst).Nodup → ∀ (k : Nat × PayPeriod) (a : JSAmount),
    (findAmt m k = some a ↔ (k, a) ∈ m) := by
  induction m with
  | nil =>
    intro _ k a
    simp [findAmt]
  | cons p ps ih =>
    intro hnd k a
    obtain ⟨k', v⟩ := p
    simp only [List.map_cons, List.nodup_cons] at hnd
    by_cases hp : k' = k
    · subst hp
      simp only [findAmt, eq_self_iff_true, if_true, List.mem_cons, Prod.mk.injEq,
        Option.some.injEq, true_and]
      constructor
      · intro h
        exact Or.inl h.symm
      · rintro (h | h)
        · exact h.symm
        · exact absurd (List.mem_map_of_mem Prod.fst h) (by simpa using hnd.1)
    · have hp' : (k', v).1 = k ↔ False := by simpa using hp
      simp only [findAmt, List.mem_cons, Prod.mk.injEq, hp', if_false]
      rw [ih hnd.2 k a]
      constructor
      · exact Or.inr
      · rintro (⟨h1, _⟩ | h)
        · exact absurd h1.symm hp
        · exact h

theorem mem_accumulate_iff (l : List Entry) (k : Nat × PayPeriod) (a : JSAmount) :
    (k, a) ∈ accumulate l ↔ k ∈ l.map keyOf ∧ a = sumAmt l k := by
  rw [← findAmt_some_iff_mem (accumulate l) (nodup_keys_accumulate l) k a,
    findAmt_accumulate l k]
  by_cases h : k ∈ l.map keyOf
  · rw [if_pos h]
    simp only [Option.some.injEq]
    constructor
    · intro hs
      exact ⟨h, hs.symm⟩
    · rintro ⟨_, rfl⟩
      rfl
  · rw [if_neg h]
    constructor
    · intro hs
      exact Option.noConfusion hs
    · rintro ⟨h1, _⟩
      exact absurd h1 h

/-! ### Properties of the sort model -/

theorem mem_insertSorted {α : Type} (le : α → α → Bool) (a x : α) :
    ∀ l : List α, x ∈ insertSorted le a l ↔ x = a ∨ x ∈ l := by
  intro l
  induction l with
  | nil => simp [insertSorted]
  | cons b t ih =>
    by_cases h : le a b
    · simp [insertSorted, h]
    · simp only [insertSorted, if_neg h, List.mem_cons, ih]
      tauto

theorem perm_insertSorted {α : Type} (le : α → α → Bool) (a : α) :
    ∀ l : List α, (insertSorted le a l).Perm (a :: l) := by
  intro l
  induction l with
  | nil => simp [insertSorted]
  | cons b t ih =>
    by_cases h : le a b
    · simp [insertSorted, h]
    · rw [insertSorted, if_neg h]
      exact (List.Perm.cons b ih).trans (List.Perm.swap a b t)

theorem perm_jsSortBy {α : Type} (le : α → α → Bool) :
    ∀ l : List α, (jsSortBy le l).Perm l := by
  intro l
  induction l with
  | nil => simp [jsSortBy]
  | cons a t ih =>
    exact (perm_insertSorted le a (jsSortBy le t)).trans (List.Perm.cons a ih)

theorem pairwise_insertSorted {α : Type} (le : α → α → Bool) (a : α) :
    ∀ l : List α, l.Pairwise (le · · = true) →
      (∀ x ∈ l, le a x = true ∨ le x a = true) →
      (∀ x ∈ l, ∀ y ∈ l, le a x = true → le x y = true → le a y = true) →
      (insertSorted le a l).Pairwise (le · · = true) := by
  intro l
  induction l with
  | nil =>
    intro _ _ _
    simp [insertSorted]
  | cons b t ih =>
    intro hs htot htrans
    rw [List.pairwise_cons] at hs
    by_cases h : le a b
    · rw [insertSorted, if_pos h]
      refine List.Pairwise.cons ?_ (List.Pairwise.cons hs.1 hs.2)
      intro x hx
      rcases List.mem_cons.1 hx with rfl | hxt
      · exact h
      · exact htrans b (by simp) x (by simp [hxt]) h (hs.1 x hxt)
    · rw [insertSorted, if_neg h]
      refine List.Pairwise.cons ?_ ?_
      · intro x hx
        rcases (mem_insertSorted le a x t).1 hx with rfl | hxt
        · rcases htot b (by simp) with h1 | h1
          · exact absurd h1 h
          · exact h1
        · exact hs.1 x hxt
      · exact ih hs.2 (fun x hx => htot x (by simp [hx]))
          (fun x hx y hy => htrans x (by simp [hx]) y (by simp [hy]))

theorem pairwise_jsSortBy {α : Type} (le : α → α → Bool) :
    ∀ l : List α,
      (∀ x ∈ l, ∀ y ∈ l, le x y = true ∨ le y x = true) →
      (∀ x ∈ l, ∀ y ∈ l, ∀ z ∈ l, le x y = true → le y z = true → le x z = true) →
      (jsSortBy le l).Pairwise (le · · = true) := by
  intro l
  induction l with
  | nil =>
    intro _ _
    simp [jsSortBy]
  | cons a t ih =>
    intro htot htrans
    rw [jsSortBy]
    have hmem : ∀ x ∈ jsSortBy le t, x ∈ t :=
      fun x hx => (perm_jsSortBy le t).mem_iff.1 hx
    refine pairwise_insertSorted le a (jsSortBy le t) ?_ ?_ ?_
    · exact ih (fun x hx y hy => htot x (by simp [hx]) y (by simp [hy]))
        (fun x hx y hy z hz =>
          htrans x (by simp [hx]) y (by simp [hy]) z (by simp [hz]))
    · intro x hx
      exact htot a (by simp) x (by simp [hmem x hx])
    · intro x hx y hy
      exact htrans a (by simp) x (by simp [hmem x hx]) y (by simp [hmem y hy])

/-- Two sorted lists that are permutations of each other and whose ordering is
antisymmetric on their elements are equal. -/
theorem eq_of_perm_of_pairwise {α : Type} (P : α → α → Prop) :
    ∀ (l₁ l₂ : List α), l₁.Perm l₂ → l₁.Pairwise P → l₂.Pairwise P →
      (∀ x ∈ l₁, ∀ y ∈ l₁, P x y → P y x → x = y) → l₁ = l₂ := by
  intro l₁
  induction l₁ with
  | nil =>
    intro l₂ hp _ _ _
    exact (hp.nil_eq).symm ▸ rfl
  | cons a t₁ ih =>
    intro l₂ hp h1 h2 hanti
    cases l₂ with
    | nil => exact absurd hp.symm (by simp)
    | cons b t₂ =>
      have hab : a = b := by
        have hamem : a ∈ b :: t₂ := hp.mem_iff.1 (by simp)
        have hbmem : b ∈ a :: t₁ := hp.mem_iff.2 (by simp)
        rcases List.mem_cons.1 hamem with h | hat2
        · exact h
        rcases List.mem_cons.1 hbmem with h | hbt1
        · exact h.symm
        have hPab : P a b := (List.pairwise_cons.1 h1).1 b hbt1
        have hPba : P b a := (List.pairwise_cons.1 h2).1 a hat2
        exact hanti a (by simp) b (by simp [hbt1]) hPab hPba
      subst hab
      have ht : t₁.Perm t₂ := hp.cons_inv
      rw [ih t₂ ht (List.pairwise_cons.1 h1).2 (List.pairwise_cons.1 h2).2
        (fun x hx y hy => hanti x (by simp [hx]) y (by simp [hy]))]

/-! ### Totals per key: exact values, NaN absorption, permutation invariance -/

theorem JSAmount.add_nan (a : JSAmount) : a.add .nan = .nan := by
  cases a <;> rfl

theorem JSAmount.nan_add (a : JSAmount) : JSAmount.nan.add a = .nan := rfl

theorem entryAmt_eq_num (e : Entry) (h : (jobGroupRates e.jobGroup).isSome = true) :
    entryAmt e = .num (e.hours100 * (jobGroupRates e.jobGroup).getD 0) := by
  unfold entryAmt rateMul
  cases hr : jobGroupRates e.jobGroup with
  | none => rw [hr] at h; simp at h
  | some r => simp

theorem entryAmt_nan (e : Entry) (h : jobGroupRates e.jobGroup = none) :
    entryAmt e = .nan := by
  unfold entryAmt
  rw [h]
  rfl

theorem sumCents_nil (k : Nat × PayPeriod) : sumCents [] k = 0 := rfl

theorem sumCents_cons (e : Entry) (l : List Entry) (k : Nat × PayPeriod) :
    sumCents (e :: l) k =
      if keyOf e = k then e.hours100 * (jobGroupRates e.jobGroup).getD 0 + sumCents l k
      else sumCents l k := by
  unfold sumCents
  by_cases h : keyOf e = k <;> simp [h]

theorem foldAmt_num (l : List Entry) (hr : ∀ e ∈ l, (jobGroupRates e.jobGroup).isSome = true) :
    ∀ (c : Nat) (k : Nat × PayPeriod),
      foldAmt l (.num c) k = .num (c + sumCents l k) := by
  induction l with
  | nil =>
    intro c k
    rw [foldAmt_nil, sumCents_nil, Nat.add_zero]
  | cons e l ih =>
    intro c k
    have hre : (jobGroupRates e.jobGroup).isSome = true := hr e (by simp)
    have hrl : ∀ e ∈ l, (jobGroupRates e.jobGroup).isSome = true :=
      fun e he => hr e (by simp [he])
    rw [foldAmt_cons, sumCents_cons]
    by_cases h : keyOf e = k
    · rw [if_pos h, if_pos h, entryAmt_eq_num e hre]
      show foldAmt l (.num (c + e.hours100 * (jobGroupRates e.jobGroup).getD 0)) k = _
      rw [ih hrl _ k]
      congr 1
      omega
    · rw [if_neg h, if_neg h, ih hrl c k]

theorem sumAmt_eq_num (l : List Entry)
    (hr : ∀ e ∈ l, (jobGroupRates e.jobGroup).isSome = true) (k : Nat × PayPeriod) :
    sumAmt l k = .num (sumCents l k) := by
  rw [sumAmt_eq_foldAmt, foldAmt_num l hr 0 k, Nat.zero_add]

theorem foldAmt_of_nan (k : Nat × PayPeriod) :
    ∀ l : List Entry, foldAmt l .nan k = .nan := by
  intro l
  induction l with
  | nil => rfl
  | cons e l ih =>
    rw [foldAmt_cons]
    by_cases h : keyOf e = k
    · rw [if_pos h, JSAmount.nan_add]
      exact ih
    · rw [if_neg h]
      exact ih

theorem sumAmt_nan (l : List Entry) (e : Entry) (he : e ∈ l)
    (hnan : entryAmt e = .nan) : sumAmt l (keyOf e) = .nan := by
  rw [sumAmt_eq_foldAmt]
  have : ∀ (l : List Entry) (a : JSAmount), e ∈ l → foldAmt l a (keyOf e) = .nan := by
    intro l
    induction l with
    | nil => intro a h; simp at h
    | cons f l ih =>
      intro a hmem
      rw [foldAmt_cons]
      rcases List.mem_cons.1 hmem with rfl | hf
      · rw [if_pos rfl, hnan, JSAmount.add_nan, foldAmt_of_nan]
      · by_cases h : keyOf f = keyOf e
        · rw [if_pos h]
          exact ih _ hf
        · rw [if_neg h]
          exact ih a hf
  exact this l _ he

theorem foldl_addAmt_perm (t1 t2 : List Entry) (hp : t1.Perm t2) :
    ∀ a : JSAmount,
      t1.foldl (fun a e => a.add (entryAmt e)) a
        = t2.foldl (fun a e => a.add (entryAmt e)) a := by
  induction hp with
  | nil => intro a; rfl
  | cons x _ ih =>
    intro a
    simp only [List.foldl_cons]
    exact ih _
  | swap x y t =>
    intro a
    simp only [List.foldl_cons]
    rw [JSAmount.add_right_swap]
  | trans _ _ ih1 ih2 =>
    intro a
    rw [ih1 a, ih2 a]

theorem foldAmt_perm (l1 l2 : List Entry) (hp : l1.Perm l2) (k : Nat × PayPeriod) :
    ∀ a : JSAmount, foldAmt l1 a k = foldAmt l2 a k := by
  intro a
  unfold foldAmt
  exact foldl_addAmt_perm _ _ (hp.filter (fun e => decide (keyOf e = k))) a

theorem sumAmt_perm (l1 l2 : List Entry) (hp : l1.Perm l2) (k : Nat × PayPeriod) :
    sumAmt l1 k = sumAmt l2 k := by
  rw [sumAmt_eq_foldAmt, sumAmt_eq_foldAmt, foldAmt_perm l1 l2 hp k]

/-! ### The rendered lines -/

theorem mem_reportLines (l : List Entry) (x : PayLine) :
    x ∈ reportLines l ↔ ∃ k, k ∈ l.map keyOf ∧ x = mkLineOf k (sumAmt l k) := by
  unfold reportLines
  constructor
  · intro hx
    obtain ⟨p, hp, rfl⟩ := List.mem_map.1 hx
    obtain ⟨k, a⟩ := p
    rw [mem_accumulate_iff] at hp
    exact ⟨k, hp.1, by rw [hp.2]⟩
  · rintro ⟨k, hk, rfl⟩
    exact List.mem_map.2 ⟨(k, sumAmt l k), (mem_accumulate_iff l k _).2 ⟨hk, rfl⟩, rfl⟩

theorem mem_employeeReports (l : List Entry) (x : PayLine) :
    x ∈ employeeReports l ↔ x ∈ reportLines l :=
  (perm_jsSortBy lineLe (reportLines l)).mem_iff

theorem reportLines_canonical (l : List Entry) (x : PayLine) (hx : x ∈ reportLines l) :
    ∃ e ∈ l, x = mkLineOf (keyOf e) (sumAmt l (keyOf e)) := by
  rw [mem_reportLines] at hx
  obtain ⟨k, hk, rfl⟩ := hx
  obtain ⟨e, he, rfl⟩ := List.mem_map.1 hk
  exact ⟨e, he, rfl⟩

/-! ### The comparator on rendered lines -/

theorem lineLe_eq_true_iff (a b : PayLine) : lineLe a b = true ↔ cmpLine a b ≤ 0 := by
  simp [lineLe]

theorem cmpLine_neg (a b : PayLine) : cmpLine b a = - cmpLine a b := by
  unfold cmpLine
  by_cases h : a.employeeId = b.employeeId
  · rw [if_pos h, if_pos h.symm]
    ring
  · rw [if_neg h, if_neg (fun hh => h hh.symm)]
    ring

theorem lineLe_total (a b : PayLine) : lineLe a b = true ∨ lineLe b a = true := by
  rw [lineLe_eq_true_iff, lineLe_eq_true_iff, cmpLine_neg a b]
  omega

theorem specLe_trans (a b c : PayLine) (h1 : specLe a b) (h2 : specLe b c) :
    specLe a c := by
  unfold specLe at *
  rcases h1 with h | ⟨h1a, h1b⟩ <;> rcases h2 with h' | ⟨h2a, h2b⟩
  · left; omega
  · left; omega
  · left; omega
  · right; exact ⟨by omega, by omega⟩

theorem lineLe_iff_specLe (e f : Entry) (u v : JSAmount) :
    lineLe (mkLineOf (keyOf e) u) (mkLineOf (keyOf f) v) = true
      ↔ specLe (mkLineOf (keyOf e) u) (mkLineOf (keyOf f) v) := by
  rw [lineLe_eq_true_iff]
  unfold cmpLine specLe
  have hxe : (mkLineOf (keyOf e) u).employeeId = jsNumToString e.employeeId := rfl
  have hxf : (mkLineOf (keyOf f) v).employeeId = jsNumToString f.employeeId := rfl
  rw [hxe, hxf]
  simp only [jsStrNum_jsNumToString]
  by_cases hid : e.employeeId = f.employeeId
  · rw [if_pos (by rw [hid])]
    constructor
    · intro h
      right
      exact ⟨hid, by omega⟩
    · rintro (h | ⟨_, h⟩)
      · omega
      · omega
  · rw [if_neg (fun hh : jsNumToString e.employeeId = jsNumToString f.employeeId =>
      hid (jsNumToString_injective hh))]
    constructor
    · intro h
      left
      omega
    · rintro (h | ⟨h, _⟩)
      · omega
      · exact absurd h hid

theorem jsDateNum_getPayPeriod_start (d : CalDate) (hv : d.Valid) :
    jsDateNum (getPayPeriod d).startDate
      = (d.year * 100 + d.month) * 100 + (if d.day ≤ 15 then 1 else 16) := by
  have hm : d.month < 100 := by
    obtain ⟨_, h2, _, _⟩ := hv
    omega
  by_cases h : d.day ≤ 15
  · rw [getPayPeriod, if_pos h, if_pos h]
    have h01 : ("01" : String) = (⟨padZeros 2 (natDigs 1)⟩ : String) := by decide
    show jsDateNum (ymdRender d.year d.month "01") = _
    rw [h01, jsDateNum_ymdRender d.year d.month 1 hm (by omega)]
  · rw [getPayPeriod, if_neg h, if_neg h]
    have h16 : ("16" : String) = (⟨padZeros 2 (natDigs 16)⟩ : String) := by decide
    show jsDateNum (ymdRender d.year d.month "16") = _
    rw [h16, jsDateNum_ymdRender d.year d.month 16 hm (by omega)]

theorem getPayPeriod_eq_of_startNum (d1 d2 : CalDate) (h1 : d1.Valid) (h2 : d2.Valid)
    (heq : jsDateNum (getPayPeriod d1).startDate = jsDateNum (getPayPeriod d2).startDate) :
    getPayPeriod d1 = getPayPeriod d2 := by
  rw [jsDateNum_getPayPeriod_start d1 h1, jsDateNum_getPayPeriod_start d2 h2] at heq
  obtain ⟨h1a, h1b, _, _⟩ := h1
  obtain ⟨h2a, h2b, _, _⟩ := h2
  by_cases hd1 : d1.day ≤ 15 <;> by_cases hd2 : d2.day ≤ 15
  · rw [if_pos hd1, if_pos hd2] at heq
    have hy : d1.year = d2.year := by omega
    have hm : d1.month = d2.month := by omega
    rw [getPayPeriod, getPayPeriod, if_pos hd1, if_pos hd2, hy, hm]
  · rw [if_pos hd1, if_neg hd2] at heq
    omega
  · rw [if_neg hd1, if_pos hd2] at heq
    omega
  · rw [if_neg hd1, if_neg hd2] at heq
    have hy : d1.year = d2.year := by omega
    have hm : d1.month = d2.month := by omega
    rw [getPayPeriod, getPayPeriod, if_neg hd1, if_neg hd2, hy, hm]

theorem reportLines_antisym (l : List Entry) (hval : ∀ e ∈ l, e.date.Valid) :
    ∀ x ∈ reportLines l, ∀ y ∈ reportLines l,
      lineLe x y = true → lineLe y x = true → x = y := by
  intro x hx y hy hxy hyx
  obtain ⟨e, he, rfl⟩ := reportLines_canonical l x hx
  obtain ⟨f, hf, rfl⟩ := reportLines_canonical l y hy
  rw [lineLe_iff_specLe] at hxy hyx
  unfold specLe at hxy hyx
  have hxe : (mkLineOf (keyOf e) (sumAmt l (keyOf e))).employeeId
      = jsNumToString e.employeeId := rfl
  have hxf : (mkLineOf (keyOf f) (sumAmt l (keyOf f))).employeeId
      = jsNumToString f.employeeId := rfl
  rw [hxe, hxf] at hxy hyx
  simp only [jsStrNum_jsNumToString] at hxy hyx
  have hkey : e.employeeId = f.employeeId ∧
      jsDateNum (mkLineOf (keyOf e) (sumAmt l (keyOf e))).payPeriod.startDate
        = jsDateNum (mkLineOf (keyOf f) (sumAmt l (keyOf f))).payPeriod.startDate := by
    rcases hxy with h | ⟨ha, hb⟩ <;> rcases hyx with h' | ⟨ha', hb'⟩ <;>
      exact ⟨by omega, by omega⟩
  have hper : getPayPeriod e.date = getPayPeriod f.date :=
    getPayPeriod_eq_of_startNum e.date f.date (hval e he) (hval f hf) hkey.2
  have hk : keyOf e = keyOf f := by
    unfold keyOf
    rw [hkey.1, hper]
  rw [hk]

theorem employeeReports_pairwise (l : List Entry) :
    (employeeReports l).Pairwise (lineLe · · = true) := by
  unfold employeeReports
  apply pairwise_jsSortBy
  · intro x _ y _
    exact lineLe_total x y
  · intro x hx y hy z hz hxy hyz
    obtain ⟨e, _, rfl⟩ := reportLines_canonical l x hx
    obtain ⟨f, _, rfl⟩ := reportLines_canonical l y hy
    obtain ⟨g, _, rfl⟩ := reportLines_canonical l z hz
    rw [lineLe_iff_specLe] at hxy hyz ⊢
    exact specLe_trans _ _ _ hxy hyz

theorem nodup_reportLines (l : List Entry) : (reportLines l).Nodup := by
  unfold reportLines
  have hnd : (accumulate l).Nodup := (nodup_keys_accumulate l).of_map Prod.fst
  apply List.Nodup.map_on ?_ hnd
  intro p hp q hq heq
  obtain ⟨k1, a1⟩ := p
  obtain ⟨k2, a2⟩ := q
  have h1 : jsNumToString k1.1 = jsNumToString k2.1 := congrArg PayLine.employeeId heq
  have h2 : k1.2 = k2.2 := congrArg PayLine.payPeriod heq
  have hk : k1 = k2 := by
    obtain ⟨ka, kb⟩ := k1
    obtain ⟨kc, kd⟩ := k2
    simp only [Prod.mk.injEq]
    exact ⟨jsNumToString_injective h1, h2⟩
  rw [mem_accumulate_iff] at hp hq
  simp only [Prod.mk.injEq]
  exact ⟨hk, by rw [hp.2, hq.2, hk]⟩

theorem reportLines_perm (l1 l2 : List Entry) (hp : l1.Perm l2) :
    (reportLines l1).Perm (reportLines l2) := by
  rw [List.perm_ext_iff_of_nodup (nodup_reportLines l1) (nodup_reportLines l2)]
  intro x
  rw [mem_reportLines, mem_reportLines]
  constructor
  · rintro ⟨k, hk, rfl⟩
    refine ⟨k, (hp.map keyOf).mem_iff.1 hk, ?_⟩
    rw [sumAmt_perm l1 l2 hp k]
  · rintro ⟨k, hk, rfl⟩
    refine ⟨k, (hp.map keyOf).mem_iff.2 hk, ?_⟩
    rw [sumAmt_perm l1 l2 hp k]

theorem employeeReports_sorted_spec (l : List Entry) :
    (employeeReports l).Sorted specLe := by
  have h := employeeReports_pairwise l
  apply List.Pairwise.imp_of_mem ?_ h
  intro a b ha hb hle
  have ha' := (mem_employeeReports l a).1 ha
  have hb' := (mem_employeeReports l b).1 hb
  obtain ⟨e, _, rfl⟩ := reportLines_canonical l a ha'
  obtain ⟨f, _, rfl⟩ := reportLines_canonical l b hb'
  exact (lineLe_iff_specLe e f _ _).1 hle

theorem employeeReports_perm_eq (l1 l2 : List Entry) (hp : l1.Perm l2)
    (hval : ∀ e ∈ l1, e.date.Valid) :
    employeeReports l1 = employeeReports l2 := by
  have hperm : (employeeReports l1).Perm (employeeReports l2) :=
    ((perm_jsSortBy lineLe (reportLines l1)).trans (reportLines_perm l1 l2 hp)).trans
      (perm_jsSortBy lineLe (reportLines l2)).symm
  apply eq_of_perm_of_pairwise (fun x y => lineLe x y = true)
    (employeeReports l1) (employeeReports l2) hperm
    (employeeReports_pairwise l1) (employeeReports_pairwise l2)
  intro x hx y hy
  exact reportLines_antisym l1 hval x ((mem_employeeReports l1 x).1 hx) y
    ((mem_employeeReports l1 y).1 hy)

/-! ### The upload pipeline (`POST /upload`)

The CSV file is modelled after parsing: `csv-parser` fires a `headers` event
with the header names (absent for a file with no parseable header row) and a
`data` event per row.  A row binds each of the four required columns to
`none` when the column is absent from the row and to `some s` when present
with value `s`; values of any extra columns are collected in `extra`.
The stateful endpoint becomes a function of the staged file, the set of
already-stored report ids, and whether the storage transaction succeeds. -/

/-- Model of JS `String.prototype.trim` (ASCII whitespace). -/
def jsTrim (s : String) : String :=
  ⟨((s.data.dropWhile Char.isWhitespace).reverse.dropWhile Char.isWhitespace).reverse⟩

/-- One parsed CSV data row. -/
structure CsvRow where
  date : Option String
  hoursWorked : Option String
  employeeId : Option String
  jobGroup : Option String
  extra : List String
deriving DecidableEq, Repr

/-- `value === undefined || value.trim() === ''`. -/
def blankOpt (o : Option String) : Bool :=
  match o with
  | none => true
  | some s => (jsTrim s).data.isEmpty

/-- The row-filter predicate: every field is absent or blank. -/
def isEmptyRow (r : CsvRow) : Bool :=
  blankOpt r.date && blankOpt r.hoursWorked && blankOpt r.employeeId &&
    blankOpt r.jobGroup && r.extra.all (fun s => (jsTrim s).data.isEmpty)

/-- The required header names of `processCSVFile`. -/
def requiredHeaders : List String := ["date", "hours worked", "employee id", "job group"]

/-- A CSV file as the parser delivers it. -/
structure CsvContent where
  headers : Option (List String)
  rows : List CsvRow
deriving DecidableEq, Repr

/-- The failures produced while parsing and validating the CSV, i.e. the
rejections of `processCSVFile` and the errors thrown while building the
insert batch, plus the empty-file check between them. -/
inductive UploadError where
  | headersNotFound
  | missingHeaders (names : List String)
  | emptyFile
  | malformedRow
  | invalidDateFormat
deriving DecidableEq, Repr

/-- `processCSVFile` of `src/index.js`: reject when no header row is parsed,
reject naming the missing required headers, otherwise deliver the data rows
with entirely-blank rows dropped. -/
def processCSVFile (c : CsvContent) : Except UploadError (List CsvRow) :=
  match c.headers with
  | none => .error .headersNotFound
  | some hs =>
    if (requiredHeaders.filter (fun h => !(hs.contains h))).isEmpty then
      .ok (c.rows.filter (fun r => !(isEmptyRow r)))
    else
      .error (.missingHeaders (requiredHeaders.filter (fun h => !(hs.contains h))))

/-- One persisted `timekeeping_entries` row (report id and serial omitted:
they are the same for the whole batch and generated, respectively). -/
structure StoredRow where
  date : String
  hoursWorked : String
  employeeId : String
  jobGroup : String
deriving DecidableEq, Repr

/-- JS falsiness of a string-or-`undefined` value: `undefined` and `''`. -/
def jsFalsy (o : Option String) : Bool :=
  match o with
  | none => true
  | some s => s.data.isEmpty

/-- Split a character list at every occurrence of `c` (empty pieces kept). -/
def splitCh (c : Char) : List Char → List (List Char)
  | [] => [[]]
  | x :: xs =>
    match splitCh c xs with
    | [] => [[]]
    | y :: ys => if x = c then [] :: y :: ys else (x :: y) :: ys

/-- Model of JS `String.prototype.split` with a one-character separator. -/
def jsSplit (c : Char) (s : String) : List String :=
  (splitCh c s.data).map (fun l => ⟨l⟩)

/-- The per-row work of the insert batch: the field-presence check
(`!date || hours_worked === undefined || employee_id === undefined ||
!job_group`), then the `DD/MM/YYYY` split-and-reformat. -/
def validateRow (r : CsvRow) : Except UploadError StoredRow :=
  if jsFalsy r.date || r.hoursWorked.isNone || r.employeeId.isNone || jsFalsy r.jobGroup then
    .error .malformedRow
  else
    match jsSplit '/' (r.date.getD "") with
    | [day, month, year] =>
      .ok { date := year ++ "-" ++ jsPadStart2 month ++ "-" ++ jsPadStart2 day,
            hoursWorked := r.hoursWorked.getD "",
            employeeId := r.employeeId.getD "",
            jobGroup := r.jobGroup.getD "" }
    | _ => .error .invalidDateFormat

/-- The insert batch built by `results.map(...)`: each row validated and
reformatted in order, stopping at the first row whose processing throws. -/
def mapRows : List CsvRow → Except UploadError (List StoredRow)
  | [] => .ok []
  | r :: rs =>
    match validateRow r with
    | .error e => .error e
    | .ok s =>
      match mapRows rs with
      | .error e => .error e
      | .ok ss => .ok (s :: ss)

/-- Parsing plus validation of the whole upload: `processCSVFile`, the
emptiness check, then the row batch. -/
def ingestCsv (c : CsvContent) : Except UploadError (List StoredRow) :=
  match processCSVFile c with
  | .error e => .error e
  | .ok results =>
    if results.isEmpty then .error .emptyFile
    else mapRows results

instance {ε α : Type} [DecidableEq ε] [DecidableEq α] : DecidableEq (Except ε α) :=
  fun a b =>
    match a, b with
    | .error e, .error f =>
      if h : e = f then isTrue (by rw [h]) else
        isFalse (by intro hh; injection hh; contradiction)
    | .error _, .ok _ => isFalse (fun hh => Except.noConfusion hh)
    | .ok _, .error _ => isFalse (fun hh => Except.noConfusion hh)
    | .ok x, .ok y =>
      if h : x = y then isTrue (by rw [h]) else
        isFalse (by intro hh; injection hh; contradiction)

/-- Model of JS `String.prototype.toLowerCase` on ASCII names. -/
def jsToLower (s : String) : String := ⟨s.data.map Char.toLower⟩

/-- Split a character list at its last `'.'`: `some (before, dot-to-end)`. -/
def extSplit : List Char → Option (List Char × List Char)
  | [] => none
  | c :: cs =>
    match extSplit cs with
    | some (pre, ext) => some (c :: pre, ext)
    | none => if c = '.' then some ([], '.' :: cs) else none

/-- Model of Node `path.extname` on a bare filename (no directory part):
the substring from the last dot, or `""` when there is no dot or the only
dot is the leading character. -/
def jsExtname (s : String) : String :=
  match extSplit s.data with
  | some ([], _) => ""
  | some (_, ext) => ⟨ext⟩
  | none => ""

/-- Model of Node `path.basename(name, '.csv')` on a bare filename: strips a
final `".csv"` (exact case) unless the name is exactly `".csv"`. -/
def basenameCsv (s : String) : String :=
  if 4 ≤ s.data.length ∧ s.data.drop (s.data.length - 4) = ['.', 'c', 's', 'v']
      ∧ s.data.length ≠ 4 then
    ⟨s.data.take (s.data.length - 4)⟩
  else s

/-- Model of `fileName.match(/^time-report-(\d+)$/)`: the captured digit
string, when the whole name is `time-report-` followed by one or more
digits. -/
def matchTimeReport (s : String) : Option String :=
  if s.data.take 12 = "time-report-".data ∧ s.data.drop 12 ≠ []
      ∧ (s.data.drop 12).all Char.isDigit then
    some ⟨s.data.drop 12⟩
  else none

/-- The staged upload: its original filename and parsed content. -/
structure UploadFile where
  originalname : String
  content : CsvContent
deriving DecidableEq, Repr

/-- Observable outcome of one `POST /upload` request: HTTP status, response
message, whether the multer temp file was unlinked, the ledger rows durably
persisted (empty on rollback), and whether a `timekeeping_reports` row was
durably recorded. -/
structure UploadResponse where
  status : Nat
  body : String
  fileDeleted : Bool
  persisted : List StoredRow
  reportRecorded : Bool
deriving DecidableEq, Repr

/-- The `POST /upload` handler of `src/index.js` as a function of the staged
file (`none` when no file reached the handler), the report ids already in
storage, and whether the storage transaction succeeds.  Thrown errors reach
the `catch` block, which rolls back and answers a generic 500 without
unlinking the temp file. -/
def uploadHandler (file? : Option UploadFile) (existing : List String)
    (storageOk : Bool) : UploadResponse :=
  match file? with
  | none =>
    { status := 400, body := "No file uploaded", fileDeleted := false,
      persisted := [], reportRecorded := false }
  | some f =>
    if jsToLower (jsExtname f.originalname) ≠ ".csv" then
      { status := 400, body := "Only CSV files are allowed", fileDeleted := true,
        persisted := [], reportRecorded := false }
    else
      match matchTimeReport (basenameCsv f.originalname) with
      | none =>
        { status := 400, body := "Invalid file name format. Expected format: time-report-x.csv",
          fileDeleted := true, persisted := [], reportRecorded := false }
      | some reportId =>
        if existing.contains reportId then
          { status := 409, body := "Report ID already exists", fileDeleted := true,
            persisted := [], reportRecorded := false }
        else
          match ingestCsv f.content with
          | .error .emptyFile =>
            { status := 400, body := "Invalid CSV format: File Empty", fileDeleted := true,
              persisted := [], reportRecorded := false }
          | .error _ =>
            { status := 500, body := "Internal server error", fileDeleted := false,
              persisted := [], reportRecorded := false }
          | .ok stored =>
            if storageOk then
              { status := 201, body := "File uploaded and data stored successfully",
                fileDeleted := true, persisted := stored, reportRecorded := true }
            else
              { status := 500, body := "Internal server error", fileDeleted := false,
                persisted := [], reportRecorded := false }

/-! ### Upload-pipeline lemmas -/

theorem splitCh_ne_nil (c : Char) : ∀ l : List Char, splitCh c l ≠ [] := by
  intro l
  induction l with
  | nil => simp [splitCh]
  | cons x xs ih =>
    cases hsp : splitCh c xs with
    | nil => exact absurd hsp ih
    | cons y ys =>
      show (match splitCh c xs with
        | [] => [[]]
        | y :: ys => if x = c then [] :: y :: ys else (x :: y) :: ys) ≠ []
      rw [hsp]
      by_cases hx : x = c <;> simp [hx]

theorem splitCh_no_sep (c : Char) : ∀ l : List Char, c ∉ l → splitCh c l = [l] := by
  intro l
  induction l with
  | nil => intro _; rfl
  | cons x xs ih =>
    intro h
    have hx : x ≠ c := fun hh => h (hh ▸ List.mem_cons_self x xs)
    have hxs : c ∉ xs := fun hh => h (List.mem_cons_of_mem x hh)
    show (match splitCh c xs with
      | [] => [[]]
      | y :: ys => if x = c then [] :: y :: ys else (x :: y) :: ys) = [x :: xs]
    rw [ih hxs]
    simp [hx]

theorem splitCh_sep_append (c : Char) : ∀ (a b : List Char), c ∉ a →
    splitCh c (a ++ c :: b) = a :: splitCh c b := by
  intro a
  induction a with
  | nil =>
    intro b _
    cases hsp : splitCh c b with
    | nil => exact absurd hsp (splitCh_ne_nil c b)
    | cons y ys =>
      show (match splitCh c b with
        | [] => [[]]
        | y :: ys => if c = c then [] :: y :: ys else (c :: y) :: ys) = [] :: y :: ys
      rw [hsp]
      simp
  | cons x a' ih =>
    intro b h
    have hx : x ≠ c := fun hh => h (hh ▸ List.mem_cons_self x a')
    have ha : c ∉ a' := fun hh => h (List.mem_cons_of_mem x hh)
    show (match splitCh c (a' ++ c :: b) with
      | [] => [[]]
      | y :: ys => if x = c then [] :: y :: ys else (x :: y) :: ys)
      = (x :: a') :: splitCh c b
    rw [ih b ha]
    simp [hx]

theorem jsSplit_dmy (dd mm yy : List Char) (hdd : '/' ∉ dd) (hmm : '/' ∉ mm)
    (hyy : '/' ∉ yy) :
    jsSplit '/' ⟨dd ++ ('/' :: (mm ++ ('/' :: yy)))⟩ = [⟨dd⟩, ⟨mm⟩, ⟨yy⟩] := by
  unfold jsSplit
  rw [data_mk, splitCh_sep_append '/' dd (mm ++ ('/' :: yy)) hdd,
    splitCh_sep_append '/' mm yy hmm, splitCh_no_sep '/' yy hyy]
  rfl

theorem jsPadStart2_len2 (l : List Char) (h : 2 ≤ l.length) :
    jsPadStart2 ⟨l⟩ = ⟨l⟩ := by
  unfold jsPadStart2 padZeros
  rw [data_mk]
  have h0 : 2 - l.length = 0 := by omega
  rw [h0]
  rfl

theorem digits_no_slash (l : List Char) (h : ∀ c ∈ l, c.isDigit = true) : '/' ∉ l := by
  intro hmem
  have := h '/' hmem
  exact absurd this (by decide)

theorem validateRow_ok (r : CsvRow) (dd mm yy : List Char)
    (hdd2 : dd.length = 2) (hmm2 : mm.length = 2)
    (hddd : ∀ c ∈ dd, c.isDigit = true) (hmmd : ∀ c ∈ mm, c.isDigit = true)
    (hyyd : ∀ c ∈ yy, c.isDigit = true)
    (hdate : r.date = some ⟨dd ++ ('/' :: (mm ++ ('/' :: yy)))⟩)
    (hh : r.hoursWorked.isSome = true) (he : r.employeeId.isSome = true)
    (hg : jsFalsy r.jobGroup = false) :
    validateRow r = .ok
      { date := (⟨yy⟩ : String) ++ "-" ++ ⟨mm⟩ ++ "-" ++ ⟨dd⟩,
        hoursWorked := r.hoursWorked.getD "",
        employeeId := r.employeeId.getD "",
        jobGroup := r.jobGroup.getD "" } := by
  have hfd : jsFalsy r.date = false := by
    rw [hdate]
    show (dd ++ ('/' :: (mm ++ ('/' :: yy)))).isEmpty = false
    cases dd <;> rfl
  have hn1 : r.hoursWorked.isNone = false := by
    cases ho : r.hoursWorked with
    | none => rw [ho] at hh; simp at hh
    | some v => rfl
  have hn2 : r.employeeId.isNone = false := by
    cases ho : r.employeeId with
    | none => rw [ho] at he; simp at he
    | some v => rfl
  have hsplit := jsSplit_dmy dd mm yy (digits_no_slash dd hddd) (digits_no_slash mm hmmd)
    (digits_no_slash yy hyyd)
  unfold validateRow
  rw [hfd, hn1, hn2, hg]
  simp only [Bool.or_self, Bool.or_false, Bool.false_or, Bool.false_eq_true, if_false]
  rw [hdate]
  simp only [Option.getD_some, hsplit]
  rw [jsPadStart2_len2 mm (by omega), jsPadStart2_len2 dd (by omega)]

theorem validateRow_malformed (r : CsvRow)
    (hbad : jsFalsy r.date = true ∨ r.hoursWorked.isNone = true ∨
      r.employeeId.isNone = true ∨ jsFalsy r.jobGroup = true) :
    validateRow r = .error .malformedRow := by
  unfold validateRow
  have hcond : (jsFalsy r.date || r.hoursWorked.isNone || r.employeeId.isNone
      || jsFalsy r.jobGroup) = true := by
    rcases hbad with h | h | h | h <;> simp [h]
  rw [hcond]
  simp

theorem mapRows_all_ok : ∀ rows : List CsvRow,
    (∀ r ∈ rows, ∃ s, validateRow r = .ok s) →
    ∃ stored, mapRows rows = .ok stored ∧
      List.Forall₂ (fun r s => validateRow r = .ok s) rows stored := by
  intro rows
  induction rows with
  | nil =>
    intro _
    exact ⟨[], rfl, List.Forall₂.nil⟩
  | cons r rs ih =>
    intro h
    obtain ⟨s, hs⟩ := h r (by simp)
    obtain ⟨stored, hst, hf⟩ := ih (fun p hp => h p (by simp [hp]))
    exact ⟨s :: stored, by simp [mapRows, hs, hst], List.Forall₂.cons hs hf⟩

theorem mapRows_first_error : ∀ (pre : List CsvRow) (r : CsvRow) (post : List CsvRow)
    (er : UploadError),
    (∀ p ∈ pre, ∃ s, validateRow p = .ok s) → validateRow r = .error er →
    mapRows (pre ++ r :: post) = .error er := by
  intro pre
  induction pre with
  | nil =>
    intro r post er _ herr
    simp [mapRows, herr]
  | cons p pre ih =>
    intro r post er hpre herr
    obtain ⟨s, hs⟩ := hpre p (by simp)
    have htail := ih r post er (fun q hq => hpre q (by simp [hq])) herr
    simp [mapRows, hs, htail]

theorem processCSVFile_ok (c : CsvContent) (hs : List String)
    (hhead : c.headers = some hs)
    (hreq : ∀ h ∈ requiredHeaders, hs.contains h = true) :
    processCSVFile c = .ok (c.rows.filter (fun r => !(isEmptyRow r))) := by
  have hmiss : requiredHeaders.filter (fun h => !(hs.contains h)) = [] := by
    rw [List.filter_eq_nil_iff]
    intro a ha
    rw [hreq a ha]
    simp
  obtain ⟨ch, rows⟩ := c
  change ch = some hs at hhead
  subst hhead
  simp only [processCSVFile]
  rw [hmiss]
  simp

theorem uploadHandler_ingest (f : UploadFile) (existing : List String) (rid : String)
    (ok : Bool)
    (hext : jsToLower (jsExtname f.originalname) = ".csv")
    (hname : matchTimeReport (basenameCsv f.originalname) = some rid)
    (hfresh : existing.contains rid = false) :
    uploadHandler (some f) existing ok =
      match ingestCsv f.content with
      | .error .emptyFile =>
        { status := 400, body := "Invalid CSV format: File Empty", fileDeleted := true,
          persisted := [], reportRecorded := false }
      | .error _ =>
        { status := 500, body := "Internal server error", fileDeleted := false,
          persisted := [], reportRecorded := false }
      | .ok stored =>
        if ok then
          { status := 201, body := "File uploaded and data stored successfully",
            fileDeleted := true, persisted := stored, reportRecorded := true }
        else
          { status := 500, body := "Internal server error", fileDeleted := false,
            persisted := [], reportRecorded := false } := by
  have hnm : ¬ rid ∈ existing := by simpa using hfresh
  simp [uploadHandler, hext, hname, hnm]

/-! ### Claim theorems -/

/-- C2 (amended): for every calendar date `d` whose year has four digits
(1000-9999), `getPayPeriod d` returns ISO `YYYY-MM-DD` strings: days 1-15 give
the period from the 1st through the 15th of `d`'s month, later days give the
16th through the last calendar day of `d`'s month (correct for 28-, 29-, 30-
and 31-day months including leap-year February), both boundaries lie in `d`'s
own calendar month, and `startDate ≤ d ≤ endDate` (the day-of-month
inequalities below, the year and month being `d`'s own).  The amendment
restricts the year to four digits: the code renders the year without padding,
so years below 1000 are not rendered as four-digit `YYYY`. -/
theorem claim_C2_pay_period_amended (d : CalDate) (hv : d.Valid)
    (hy1 : 1000 ≤ d.year) (hy2 : d.year ≤ 9999) :
    ∃ sd ed : Nat,
      getPayPeriod d = { startDate := specIso d.year d.month sd,
                         endDate := specIso d.year d.month ed } ∧
      ((d.day ≤ 15 ∧ sd = 1 ∧ ed = 15) ∨
        (15 < d.day ∧ sd = 16 ∧ ed = daysInMonth d.year d.month)) ∧
      sd ≤ d.day ∧ d.day ≤ ed := by
  obtain ⟨h1, h2, h3, h4⟩ := hv
  by_cases h : d.day ≤ 15
  · refine ⟨1, 15, ?_, Or.inl ⟨h, rfl, rfl⟩, h3, h⟩
    rw [getPayPeriod, if_pos h]
    have e1 : ("01" : String) = (⟨padZeros 2 (natDigs 1)⟩ : String) := by decide
    have e15 : ("15" : String) = (⟨padZeros 2 (natDigs 15)⟩ : String) := by decide
    rw [e1, e15, ymdRender_eq_specIso d.year d.month 1 hy1 hy2,
      ymdRender_eq_specIso d.year d.month 15 hy1 hy2]
  · have hbound := daysInMonth_bounds d.year d.month h1 h2
    refine ⟨16, daysInMonth d.year d.month, ?_, Or.inr ⟨by omega, rfl, rfl⟩, by omega, h4⟩
    rw [getPayPeriod, if_neg h]
    have e16 : ("16" : String) = (⟨padZeros 2 (natDigs 16)⟩ : String) := by decide
    have elast : jsNumToString (daysInMonth d.year d.month)
        = (⟨padZeros 2 (natDigs (daysInMonth d.year d.month))⟩ : String) :=
      jsNumToString_two_digits _ (by omega) (by omega)
    rw [e16, elast, ymdRender_eq_specIso d.year d.month 16 hy1 hy2,
      ymdRender_eq_specIso d.year d.month (daysInMonth d.year d.month) hy1 hy2]

/-- C2 counterexample: May 10 of year 999 is a real calendar date, but the
resolver renders its period start as the nine-character string `"999-05-01"`,
which is not an ISO `YYYY-MM-DD` string (those have ten characters, the year
zero-padded to four digits as in `specIso`).  So the claim as stated — ISO
`YYYY-MM-DD` output for every calendar date — is false. -/
theorem claim_C2_counterexample :
    CalDate.Valid ⟨999, 5, 10⟩ ∧
    (getPayPeriod ⟨999, 5, 10⟩).startDate = "999-05-01" ∧
    (getPayPeriod ⟨999, 5, 10⟩).startDate ≠ specIso 999 5 1 ∧
    (getPayPeriod ⟨999, 5, 10⟩).startDate.data.length ≠ 10 := by
  decide

/-- C2 witness: the amended theorem applied to 20 February 2024, a leap
year (the period is the 16th through the 29th). -/
theorem claim_C2_witness :
    ∃ sd ed : Nat,
      getPayPeriod ⟨2024, 2, 20⟩
        = { startDate := specIso 2024 2 sd, endDate := specIso 2024 2 ed } ∧
      (((⟨2024, 2, 20⟩ : CalDate).day ≤ 15 ∧ sd = 1 ∧ ed = 15) ∨
        (15 < (⟨2024, 2, 20⟩ : CalDate).day ∧ sd = 16 ∧ ed = daysInMonth 2024 2)) ∧
      sd ≤ (⟨2024, 2, 20⟩ : CalDate).day ∧ (⟨2024, 2, 20⟩ : CalDate).day ≤ ed :=
  claim_C2_pay_period_amended ⟨2024, 2, 20⟩ (by decide) (by decide) (by decide)

/-- C1: for every multiset of stored ledger entries whose job groups all have
a pay rate (A = 30, B = 20), the report contains exactly one line per distinct
`(employeeId, pay period)` key: every line comes from a stored key and shows
the employee id rendered as a string together with `amountPaid` equal to a
leading `$` followed by the key's total — hours times the job-group rate,
summed over the key's entries — with exactly two decimals (`jsToFixed2`);
every stored key yields such a line; no two lines share a key; and the report
of an empty store is the empty sequence. -/
theorem claim_C1_aggregation (l : List Entry)
    (hr : ∀ e ∈ l, (jobGroupRates e.jobGroup).isSome = true) :
    (∀ x ∈ employeeReports l, ∃ k ∈ l.map keyOf,
        x = { employeeId := jsNumToString k.1, payPeriod := k.2,
              amountPaid := "$" ++ jsToFixed2 (sumCents l k) }) ∧
    (∀ k ∈ l.map keyOf, ∃ x ∈ employeeReports l,
        x = { employeeId := jsNumToString k.1, payPeriod := k.2,
              amountPaid := "$" ++ jsToFixed2 (sumCents l k) }) ∧
    ((employeeReports l).map (fun x => (x.employeeId, x.payPeriod))).Nodup ∧
    (l = [] → employeeReports l = []) := by
  have hline : ∀ k, mkLineOf k (sumAmt l k)
      = { employeeId := jsNumToString k.1, payPeriod := k.2,
          amountPaid := "$" ++ jsToFixed2 (sumCents l k) } := by
    intro k
    unfold mkLineOf
    rw [sumAmt_eq_num l hr k]
    rfl
  refine ⟨?_, ?_, ?_, ?_⟩
  · intro x hx
    obtain ⟨k, hk, rfl⟩ := (mem_reportLines l x).1 ((mem_employeeReports l x).1 hx)
    exact ⟨k, hk, (hline k).symm ▸ (hline k)⟩
  · intro k hk
    refine ⟨mkLineOf k (sumAmt l k), ?_, hline k⟩
    exact (mem_employeeReports l _).2 ((mem_reportLines l _).2 ⟨k, hk, rfl⟩)
  · have hperm : ((employeeReports l).map (fun x => (x.employeeId, x.payPeriod))).Perm
        ((reportLines l).map (fun x => (x.employeeId, x.payPeriod))) :=
      (perm_jsSortBy lineLe (reportLines l)).map _
    apply hperm.nodup_iff.2
    unfold reportLines
    rw [List.map_map]
    have heq : ((fun x : PayLine => (x.employeeId, x.payPeriod))
          ∘ (fun p : (Nat × PayPeriod) × JSAmount => mkLineOf p.1 p.2))
        = fun p : (Nat × PayPeriod) × JSAmount => (jsNumToString p.1.1, p.1.2) := rfl
    rw [heq]
    have heq2 : (fun p : (Nat × PayPeriod) × JSAmount => (jsNumToString p.1.1, p.1.2))
        = (fun k : Nat × PayPeriod => (jsNumToString k.1, k.2)) ∘ Prod.fst := rfl
    rw [heq2, ← List.map_map]
    apply List.Nodup.map ?_ (nodup_keys_accumulate l)
    intro a b hab
    obtain ⟨a1, a2⟩ := a
    obtain ⟨b1, b2⟩ := b
    simp only [Prod.mk.injEq] at hab ⊢
    exact ⟨jsNumToString_injective hab.1, hab.2⟩
  · intro h
    subst h
    rfl

/-- C1 witness: the specification's own scenario — entries
`(2023-01-04, 10h, employee 1, A)`, `(2023-01-14, 5h, employee 1, A)`,
`(2023-01-20, 3h, employee 2, B)`, `(2023-01-20, 4h, employee 1, A)` — all in
rated job groups. -/
theorem claim_C1_witness :
    (∀ x ∈ employeeReports
        [⟨⟨2023, 1, 4⟩, 1000, 1, "A"⟩, ⟨⟨2023, 1, 14⟩, 500, 1, "A"⟩,
         ⟨⟨2023, 1, 20⟩, 300, 2, "B"⟩, ⟨⟨2023, 1, 20⟩, 400, 1, "A"⟩],
      ∃ k ∈ List.map keyOf
        [⟨⟨2023, 1, 4⟩, 1000, 1, "A"⟩, ⟨⟨2023, 1, 14⟩, 500, 1, "A"⟩,
         ⟨⟨2023, 1, 20⟩, 300, 2, "B"⟩, ⟨⟨2023, 1, 20⟩, 400, 1, "A"⟩],
        x = { employeeId := jsNumToString k.1, payPeriod := k.2,
              amountPaid := "$" ++ jsToFixed2 (sumCents
                [⟨⟨2023, 1, 4⟩, 1000, 1, "A"⟩, ⟨⟨2023, 1, 14⟩, 500, 1, "A"⟩,
                 ⟨⟨2023, 1, 20⟩, 300, 2, "B"⟩, ⟨⟨2023, 1, 20⟩, 400, 1, "A"⟩] k) }) ∧
    (∀ k ∈ List.map keyOf
        [⟨⟨2023, 1, 4⟩, 1000, 1, "A"⟩, ⟨⟨2023, 1, 14⟩, 500, 1, "A"⟩,
         ⟨⟨2023, 1, 20⟩, 300, 2, "B"⟩, ⟨⟨2023, 1, 20⟩, 400, 1, "A"⟩],
      ∃ x ∈ employeeReports
        [⟨⟨2023, 1, 4⟩, 1000, 1, "A"⟩, ⟨⟨2023, 1, 14⟩, 500, 1, "A"⟩,
         ⟨⟨2023, 1, 20⟩, 300, 2, "B"⟩, ⟨⟨2023, 1, 20⟩, 400, 1, "A"⟩],
        x = { employeeId := jsNumToString k.1, payPeriod := k.2,
              amountPaid := "$" ++ jsToFixed2 (sumCents
                [⟨⟨2023, 1, 4⟩, 1000, 1, "A"⟩, ⟨⟨2023, 1, 14⟩, 500, 1, "A"⟩,
                 ⟨⟨2023, 1, 20⟩, 300, 2, "B"⟩, ⟨⟨2023, 1, 20⟩, 400, 1, "A"⟩] k) }) ∧
    ((employeeReports
        [⟨⟨2023, 1, 4⟩, 1000, 1, "A"⟩, ⟨⟨2023, 1, 14⟩, 500, 1, "A"⟩,
         ⟨⟨2023, 1, 20⟩, 300, 2, "B"⟩, ⟨⟨2023, 1, 20⟩, 400, 1, "A"⟩]).map
      (fun x => (x.employeeId, x.payPeriod))).Nodup ∧
    (([] : List Entry) = [] → employeeReports ([] : List Entry) = []) := by
  have h := claim_C1_aggregation
    [⟨⟨2023, 1, 4⟩, 1000, 1, "A"⟩, ⟨⟨2023, 1, 14⟩, 500, 1, "A"⟩,
     ⟨⟨2023, 1, 20⟩, 300, 2, "B"⟩, ⟨⟨2023, 1, 20⟩, 400, 1, "A"⟩] (by decide)
  exact ⟨h.1, h.2.1, h.2.2.1, fun _ => rfl⟩

/-- C4: the report is a function of the multiset of stored rows only: any
permutation of the stored entries (in particular, the one read back by a
second run with no intervening writes, whatever order the store returns)
renders the identical report, and that report is sorted with primary key the
employee id compared numerically (`jsStrNum` of the rendered string, not
lexicographic string order) and secondary key the pay period's start date in
chronological order (`specLe`).  Stored dates are real calendar dates
(`DATE` column), hence the validity hypothesis. -/
theorem claim_C4_order_independent_sorted (l1 l2 : List Entry) (hp : l1.Perm l2)
    (hval : ∀ e ∈ l1, e.date.Valid) :
    employeeReports l1 = employeeReports l2 ∧
    (employeeReports l1).Sorted specLe :=
  ⟨employeeReports_perm_eq l1 l2 hp hval, employeeReports_sorted_spec l1⟩

/-- C4 witness: employees 10 and 2 in either input order; numeric order puts
employee 2 before employee 10 (lexicographic order on the rendered strings
would put "10" first). -/
theorem claim_C4_witness :
    employeeReports [⟨⟨2023, 1, 4⟩, 1000, 10, "A"⟩, ⟨⟨2023, 1, 4⟩, 500, 2, "A"⟩]
        = employeeReports [⟨⟨2023, 1, 4⟩, 500, 2, "A"⟩, ⟨⟨2023, 1, 4⟩, 1000, 10, "A"⟩] ∧
    (employeeReports [⟨⟨2023, 1, 4⟩, 1000, 10, "A"⟩, ⟨⟨2023, 1, 4⟩, 500, 2, "A"⟩]).Sorted
      specLe :=
  claim_C4_order_independent_sorted
    [⟨⟨2023, 1, 4⟩, 1000, 10, "A"⟩, ⟨⟨2023, 1, 4⟩, 500, 2, "A"⟩]
    [⟨⟨2023, 1, 4⟩, 500, 2, "A"⟩, ⟨⟨2023, 1, 4⟩, 1000, 10, "A"⟩]
    (by decide) (by decide)

/-- C9: an entry whose job group is absent from the rate table (rate lookup
`none`, i.e. JS `undefined`) is neither rejected nor dropped nor given a zero
rate: the report still contains the line for its `(employeeId, pay period)`
key, and — because `undefined` propagates through the multiplication and the
`+=` accumulation as `NaN` — every line of that key renders `amountPaid` as
the literal string `"$NaN"`. -/
theorem claim_C9_nan_propagation (l : List Entry) (e : Entry) (he : e ∈ l)
    (hnr : jobGroupRates e.jobGroup = none) :
    (∃ x ∈ employeeReports l, x.employeeId = jsNumToString e.employeeId ∧
      x.payPeriod = getPayPeriod e.date ∧ x.amountPaid = "$NaN") ∧
    (∀ x ∈ employeeReports l, x.employeeId = jsNumToString e.employeeId →
      x.payPeriod = getPayPeriod e.date → x.amountPaid = "$NaN") := by
  have hnan : sumAmt l (keyOf e) = .nan := sumAmt_nan l e he (entryAmt_nan e hnr)
  have hamt : ("$" : String) ++ renderAmount (sumAmt l (keyOf e)) = "$NaN" := by
    rw [hnan]
    decide
  constructor
  · refine ⟨mkLineOf (keyOf e) (sumAmt l (keyOf e)), ?_, rfl, rfl, hamt⟩
    exact (mem_employeeReports l _).2
      ((mem_reportLines l _).2 ⟨keyOf e, List.mem_map_of_mem keyOf he, rfl⟩)
  · intro x hx hid hper
    obtain ⟨k, hk, rfl⟩ := (mem_reportLines l x).1 ((mem_employeeReports l x).1 hx)
    have hk1 : k.1 = e.employeeId := jsNumToString_injective hid
    have hk2 : k.2 = getPayPeriod e.date := hper
    have hkk : k = keyOf e := by
      obtain ⟨ka, kb⟩ := k
      unfold keyOf
      rw [← hk1, ← hk2]
    rw [hkk]
    exact hamt

/-- C9 witness: a single entry in unknown job group "C" renders `"$NaN"`. -/
theorem claim_C9_witness :
    (∃ x ∈ employeeReports [⟨⟨2023, 1, 4⟩, 1000, 1, "C"⟩],
      x.employeeId = jsNumToString 1 ∧
      x.payPeriod = getPayPeriod ⟨2023, 1, 4⟩ ∧ x.amountPaid = "$NaN") ∧
    (∀ x ∈ employeeReports [⟨⟨2023, 1, 4⟩, 1000, 1, "C"⟩],
      x.employeeId = jsNumToString 1 →
      x.payPeriod = getPayPeriod ⟨2023, 1, 4⟩ → x.amountPaid = "$NaN") :=
  claim_C9_nan_propagation [⟨⟨2023, 1, 4⟩, 1000, 1, "C"⟩]
    ⟨⟨2023, 1, 4⟩, 1000, 1, "C"⟩ (by decide) (by decide)

/-- A surviving row that is well-formed in the sense of claim C3: its date is
present in `DD/MM/YYYY` form (two digit characters, slash, two digits, slash,
four digits), `hours worked` and `employee id` are present, and `job group`
is present and non-empty. -/
def WellFormedRow (r : CsvRow) : Prop :=
  (∃ dd mm yy : List Char, dd.length = 2 ∧ mm.length = 2 ∧ yy.length = 4 ∧
    (∀ c ∈ dd, c.isDigit = true) ∧ (∀ c ∈ mm, c.isDigit = true) ∧
    (∀ c ∈ yy, c.isDigit = true) ∧
    r.date = some ⟨dd ++ ('/' :: (mm ++ ('/' :: yy)))⟩) ∧
  r.hoursWorked.isSome = true ∧ r.employeeId.isSome = true ∧
  jsFalsy r.jobGroup = false

theorem validateRow_wf_spec (r : CsvRow) (h : WellFormedRow r) :
    ∃ s, validateRow r = .ok s ∧
      (s.hoursWorked = r.hoursWorked.getD "" ∧
       s.employeeId = r.employeeId.getD "" ∧
       s.jobGroup = r.jobGroup.getD "" ∧
       ∀ dd mm yy : List Char, r.date = some ⟨dd ++ ('/' :: (mm ++ ('/' :: yy)))⟩ →
         (∀ c ∈ dd, c.isDigit = true) → (∀ c ∈ mm, c.isDigit = true) →
         (∀ c ∈ yy, c.isDigit = true) → dd.length = 2 → mm.length = 2 →
         s.date = (⟨yy⟩ : String) ++ "-" ++ (⟨mm⟩ : String) ++ "-" ++ (⟨dd⟩ : String)) := by
  obtain ⟨⟨dd0, mm0, yy0, hd2, hm2, hy4, hdd, hmd, hyd, hdate⟩, hh, he, hg⟩ := h
  refine ⟨_, validateRow_ok r dd0 mm0 yy0 hd2 hm2 hdd hmd hyd hdate hh he hg,
    rfl, rfl, rfl, ?_⟩
  intro dd mm yy hdate' hdd' hmd' hyd' _ _
  have heq : (⟨dd0 ++ ('/' :: (mm0 ++ ('/' :: yy0)))⟩ : String)
      = ⟨dd ++ ('/' :: (mm ++ ('/' :: yy)))⟩ :=
    Option.some.inj (hdate.symm.trans hdate')
  have hsp1 := jsSplit_dmy dd0 mm0 yy0 (digits_no_slash _ hdd) (digits_no_slash _ hmd)
    (digits_no_slash _ hyd)
  have hsp2 := jsSplit_dmy dd mm yy (digits_no_slash _ hdd') (digits_no_slash _ hmd')
    (digits_no_slash _ hyd')
  rw [heq] at hsp1
  have h12 := hsp2.symm.trans hsp1
  simp only [List.cons.injEq, and_true] at h12
  obtain ⟨e1, e2, e3⟩ := h12
  show (⟨yy0⟩ : String) ++ "-" ++ (⟨mm0⟩ : String) ++ "-" ++ (⟨dd0⟩ : String)
      = (⟨yy⟩ : String) ++ "-" ++ (⟨mm⟩ : String) ++ "-" ++ (⟨dd⟩ : String)
  rw [← e1, ← e2, ← e3]

theorem forall₂_imp_mem {α β : Type} (P Q : α → β → Prop) :
    ∀ {l1 : List α} {l2 : List β}, List.Forall₂ P l1 l2 →
      (∀ a ∈ l1, ∀ b, P a b → Q a b) → List.Forall₂ Q l1 l2 := by
  intro l1 l2 hf
  induction hf with
  | nil => intro _; exact List.Forall₂.nil
  | cons h _ ih =>
    intro himp
    exact List.Forall₂.cons (himp _ (by simp) _ h)
      (ih (fun a ha b hab => himp a (by simp [ha]) b hab))

/-- C3: for every valid upload (matching `time-report-<digits>` name, fresh
report id, `.csv` extension, all required headers present, at least one
surviving row, all surviving rows well-formed), the upload succeeds and the
persisted ledger rows correspond one-to-one, in order, to exactly the input
rows that are not entirely blank; each persisted row carries its input row's
`hours worked`, `employee id` and `job group` unchanged, and its `DD/MM/YYYY`
date rewritten to `YYYY-MM-DD`.  Entirely-blank rows are dropped by the
filter and persist nothing. -/
theorem claim_C3_valid_upload_persists (f : UploadFile) (existing : List String)
    (rid : String) (hs : List String)
    (hext : jsToLower (jsExtname f.originalname) = ".csv")
    (hname : matchTimeReport (basenameCsv f.originalname) = some rid)
    (hfresh : existing.contains rid = false)
    (hhead : f.content.headers = some hs)
    (hreq : ∀ h ∈ requiredHeaders, hs.contains h = true)
    (hnonempty : f.content.rows.filter (fun r => !(isEmptyRow r)) ≠ [])
    (hwf : ∀ r ∈ f.content.rows.filter (fun r => !(isEmptyRow r)), WellFormedRow r) :
    ∃ stored,
      uploadHandler (some f) existing true =
        { status := 201, body := "File uploaded and data stored successfully",
          fileDeleted := true, persisted := stored, reportRecorded := true } ∧
      List.Forall₂ (fun (r : CsvRow) (s : StoredRow) =>
          s.hoursWorked = r.hoursWorked.getD "" ∧
          s.employeeId = r.employeeId.getD "" ∧
          s.jobGroup = r.jobGroup.getD "" ∧
          ∀ dd mm yy : List Char, r.date = some ⟨dd ++ ('/' :: (mm ++ ('/' :: yy)))⟩ →
            (∀ c ∈ dd, c.isDigit = true) → (∀ c ∈ mm, c.isDigit = true) →
            (∀ c ∈ yy, c.isDigit = true) → dd.length = 2 → mm.length = 2 →
            s.date = (⟨yy⟩ : String) ++ "-" ++ (⟨mm⟩ : String) ++ "-" ++ (⟨dd⟩ : String))
        (f.content.rows.filter (fun r => !(isEmptyRow r))) stored := by
  have hproc := processCSVFile_ok f.content hs hhead hreq
  have hrows : ∀ r ∈ f.content.rows.filter (fun r => !(isEmptyRow r)),
      ∃ s, validateRow r = .ok s :=
    fun r hr => (validateRow_wf_spec r (hwf r hr)).imp (fun s hsp => hsp.1)
  obtain ⟨stored, hst, hfa⟩ := mapRows_all_ok _ hrows
  have hne : ¬ ((f.content.rows.filter (fun r => !(isEmptyRow r))).isEmpty = true) :=
    fun hemp => hnonempty (List.isEmpty_iff.1 hemp)
  have hingest : ingestCsv f.content = .ok stored := by
    simp only [ingestCsv, hproc]
    rw [if_neg hne]
    exact hst
  refine ⟨stored, ?_, ?_⟩
  · rw [uploadHandler_ingest f existing rid true hext hname hfresh]
    simp [hingest]
  · refine forall₂_imp_mem _ _ hfa ?_
    intro r hr s hrs
    obtain ⟨s', hs', hspec⟩ := validateRow_wf_spec r (hwf r hr)
    have hss : s' = s := by
       have := hs'.symm.trans hrs
       exact Except.ok.inj this
    rw [← hss]
    exact hspec

/-- C3 witness: a fresh `time-report-5.csv` with all headers, one well-formed
row and one entirely-blank row; the blank row is dropped and the dated row is
stored with its date rewritten. -/
theorem claim_C3_witness :
    ∃ stored,
      uploadHandler (some ⟨"time-report-5.csv", ⟨some requiredHeaders,
          [⟨some "05/01/2023", some "8", some "1", some "A", []⟩,
           ⟨some "  ", some "", none, some " ", []⟩]⟩⟩) [] true =
        { status := 201, body := "File uploaded and data stored successfully",
          fileDeleted := true, persisted := stored, reportRecorded := true } ∧
      List.Forall₂ (fun (r : CsvRow) (s : StoredRow) =>
          s.hoursWorked = r.hoursWorked.getD "" ∧
          s.employeeId = r.employeeId.getD "" ∧
          s.jobGroup = r.jobGroup.getD "" ∧
          ∀ dd mm yy : List Char, r.date = some ⟨dd ++ ('/' :: (mm ++ ('/' :: yy)))⟩ →
            (∀ c ∈ dd, c.isDigit = true) → (∀ c ∈ mm, c.isDigit = true) →
            (∀ c ∈ yy, c.isDigit = true) → dd.length = 2 → mm.length = 2 →
            s.date = (⟨yy⟩ : String) ++ "-" ++ (⟨mm⟩ : String) ++ "-" ++ (⟨dd⟩ : String))
        ([⟨some "05/01/2023", some "8", some "1", some "A", []⟩,
          ⟨some "  ", some "", none, some " ", []⟩].filter (fun r => !(isEmptyRow r)))
        stored :=
  claim_C3_valid_upload_persists
    ⟨"time-report-5.csv", ⟨some requiredHeaders,
      [⟨some "05/01/2023", some "8", some "1", some "A", []⟩,
       ⟨some "  ", some "", none, some " ", []⟩]⟩⟩ [] "5" requiredHeaders
    (by decide) (by decide) (by decide) rfl (by decide) (by decide)
    (by
      intro r hr
      rw [show ([⟨some "05/01/2023", some "8", some "1", some "A", []⟩,
          ⟨some "  ", some "", none, some " ", []⟩] : List CsvRow).filter
            (fun r => !(isEmptyRow r))
          = [⟨some "05/01/2023", some "8", some "1", some "A", []⟩] from by decide] at hr
      simp only [List.mem_singleton] at hr
      subst hr
      exact ⟨⟨['0','5'], ['0','1'], ['2','0','2','3'], rfl, rfl, rfl,
        by decide, by decide, by decide, by decide⟩, rfl, rfl, rfl⟩)

/-- C5 counterexample: the surviving row `01/01/2023,<empty>,1,A` fails to
supply a non-empty `hours worked` field, yet the row validation accepts it —
`hours_worked === undefined` does not catch the present-but-empty string —
and the upload proceeds to store the row (status 201), instead of aborting
the batch with `MalformedRow` as the claim states. -/
theorem claim_C5_counterexample :
    validateRow ⟨some "01/01/2023", some "", some "1", some "A", []⟩
        = .ok ⟨"2023-01-01", "", "1", "A"⟩ ∧
    uploadHandler (some ⟨"time-report-7.csv", ⟨some requiredHeaders,
        [⟨some "01/01/2023", some "", some "1", some "A", []⟩]⟩⟩) [] true
      = { status := 201, body := "File uploaded and data stored successfully",
          fileDeleted := true, persisted := [⟨"2023-01-01", "", "1", "A"⟩],
          reportRecorded := true } := by
  decide

/-- C5 (amended): ingestion aborts the whole batch with `MalformedRow` — no
ledger row persisted, reported as the generic 500 — when the first offending
surviving row fails the code's field-presence check: an absent or empty
`date`, an absent or empty `job group`, or an entirely absent (`undefined`)
`hours worked` or `employee id` column.  (A present-but-empty `hours worked`
or `employee id` passes the check, which is what the counterexample shows;
the claim's "non-empty" reading holds only for `date` and `job group`.) -/
theorem claim_C5_amended_malformed (f : UploadFile) (existing : List String)
    (rid : String) (hs : List String) (pre post : List CsvRow) (r : CsvRow)
    (hext : jsToLower (jsExtname f.originalname) = ".csv")
    (hname : matchTimeReport (basenameCsv f.originalname) = some rid)
    (hfresh : existing.contains rid = false)
    (hhead : f.content.headers = some hs)
    (hreq : ∀ h ∈ requiredHeaders, hs.contains h = true)
    (hsplit : f.content.rows.filter (fun r => !(isEmptyRow r)) = pre ++ r :: post)
    (hpre : ∀ p ∈ pre, ∃ s, validateRow p = .ok s)
    (hbad : jsFalsy r.date = true ∨ r.hoursWorked.isNone = true ∨
      r.employeeId.isNone = true ∨ jsFalsy r.jobGroup = true) :
    ingestCsv f.content = .error .malformedRow ∧
    uploadHandler (some f) existing true =
      { status := 500, body := "Internal server error", fileDeleted := false,
        persisted := [], reportRecorded := false } := by
  have hproc := processCSVFile_ok f.content hs hhead hreq
  have herr := mapRows_first_error pre r post .malformedRow hpre
    (validateRow_malformed r hbad)
  have hne : ¬ ((f.content.rows.filter (fun r => !(isEmptyRow r))).isEmpty = true) := by
    rw [hsplit]
    simp
  have hingest : ingestCsv f.content = .error .malformedRow := by
    simp only [ingestCsv, hproc]
    rw [if_neg hne, hsplit]
    exact herr
  refine ⟨hingest, ?_⟩
  rw [uploadHandler_ingest f existing rid true hext hname hfresh]
  simp [hingest]

/-- C5-amended witness: a row with a present date and job group but an
absent `employee id` column triggers `MalformedRow` (the generic 500) and
nothing is persisted. -/
theorem claim_C5_witness :
    ingestCsv ⟨some requiredHeaders,
        [⟨some "01/01/2023", some "8", none, some "A", []⟩]⟩ = .error .malformedRow ∧
    uploadHandler (some ⟨"time-report-8.csv", ⟨some requiredHeaders,
        [⟨some "01/01/2023", some "8", none, some "A", []⟩]⟩⟩) [] true =
      { status := 500, body := "Internal server error", fileDeleted := false,
        persisted := [], reportRecorded := false } :=
  claim_C5_amended_malformed
    ⟨"time-report-8.csv", ⟨some requiredHeaders,
      [⟨some "01/01/2023", some "8", none, some "A", []⟩]⟩⟩ [] "8" requiredHeaders
    [] [] ⟨some "01/01/2023", some "8", none, some "A", []⟩
    (by decide) (by decide) (by decide) rfl (by decide) (by decide)
    (by intro p hp; exact absurd hp (List.not_mem_nil p)) (by decide)

/-- C6 counterexample: a fresh, well-named `.csv` upload whose header row
lacks `job group` is a caller-input error (`MissingHeaders`), but the handler
reports it as the generic 500 `Internal server error` — the rejection thrown
by `processCSVFile` lands in the catch-all — not as a 400-class structured
error naming the missing headers, as the claim states. -/
theorem claim_C6_counterexample :
    uploadHandler (some ⟨"time-report-9.csv",
        ⟨some ["date", "hours worked", "employee id"],
         [⟨some "05/01/2023", some "8", some "1", some "A", []⟩]⟩⟩) [] true =
      { status := 500, body := "Internal server error", fileDeleted := false,
        persisted := [], reportRecorded := false } := by
  decide

/-- C6 (amended): the statuses the handler actually returns.
`NoFileProvided`, `UnsupportedFileType`, `InvalidFilenameFormat` and
`EmptyFile` are 400 with a descriptive message; `DuplicateReport` is 409;
but `HeadersNotFound`, `MissingHeaders`, `MalformedRow` and
`InvalidDateFormat` — caller-input errors — are reported exactly like
`StorageFailure`: as the generic 500 `Internal server error`, with the
detail only logged. -/
theorem claim_C6_amended_statuses (f : UploadFile) (existing : List String)
    (rid : String) (e : UploadError) :
    (uploadHandler none existing true =
      { status := 400, body := "No file uploaded", fileDeleted := false,
        persisted := [], reportRecorded := false }) ∧
    (jsToLower (jsExtname f.originalname) ≠ ".csv" →
      uploadHandler (some f) existing true =
        { status := 400, body := "Only CSV files are allowed", fileDeleted := true,
          persisted := [], reportRecorded := false }) ∧
    (jsToLower (jsExtname f.originalname) = ".csv" →
      matchTimeReport (basenameCsv f.originalname) = none →
      uploadHandler (some f) existing true =
        { status := 400,
          body := "Invalid file name format. Expected format: time-report-x.csv",
          fileDeleted := true, persisted := [], reportRecorded := false }) ∧
    (jsToLower (jsExtname f.originalname) = ".csv" →
      matchTimeReport (basenameCsv f.originalname) = some rid →
      existing.contains rid = true →
      uploadHandler (some f) existing true =
        { status := 409, body := "Report ID already exists", fileDeleted := true,
          persisted := [], reportRecorded := false }) ∧
    (jsToLower (jsExtname f.originalname) = ".csv" →
      matchTimeReport (basenameCsv f.originalname) = some rid →
      existing.contains rid = false →
      ingestCsv f.content = .error .emptyFile →
      uploadHandler (some f) existing true =
        { status := 400, body := "Invalid CSV format: File Empty", fileDeleted := true,
          persisted := [], reportRecorded := false }) ∧
    (jsToLower (jsExtname f.originalname) = ".csv" →
      matchTimeReport (basenameCsv f.originalname) = some rid →
      existing.contains rid = false →
      ingestCsv f.content = .error e → e ≠ .emptyFile →
      uploadHandler (some f) existing true =
        { status := 500, body := "Internal server error", fileDeleted := false,
          persisted := [], reportRecorded := false }) ∧
    (∀ stored, jsToLower (jsExtname f.originalname) = ".csv" →
      matchTimeReport (basenameCsv f.originalname) = some rid →
      existing.contains rid = false →
      ingestCsv f.content = .ok stored →
      uploadHandler (some f) existing false =
        { status := 500, body := "Internal server error", fileDeleted := false,
          persisted := [], reportRecorded := false }) := by
  refine ⟨rfl, ?_, ?_, ?_, ?_, ?_, ?_⟩
  · intro h
    simp only [uploadHandler]
    rw [if_pos h]
  · intro h1 h2
    simp [uploadHandler, h1, h2]
  · intro h1 h2 h3
    have hm : rid ∈ existing := by simpa using h3
    simp [uploadHandler, h1, h2, hm]
  · intro h1 h2 h3 h4
    rw [uploadHandler_ingest f existing rid true h1 h2 h3]
    simp [h4]
  · intro h1 h2 h3 h4 h5
    rw [uploadHandler_ingest f existing rid true h1 h2 h3, h4]
    cases e with
    | emptyFile => exact absurd rfl h5
    | headersNotFound => rfl
    | missingHeaders names => rfl
    | malformedRow => rfl
    | invalidDateFormat => rfl
  · intro stored h1 h2 h3 h4
    rw [uploadHandler_ingest f existing rid false h1 h2 h3]
    simp [h4]

/-- C6-amended witness: a header-only file is an `EmptyFile` and gets the
400 with its message. -/
theorem claim_C6_witness :
    uploadHandler (some ⟨"time-report-3.csv", ⟨some requiredHeaders, []⟩⟩) [] true =
      { status := 400, body := "Invalid CSV format: File Empty", fileDeleted := true,
        persisted := [], reportRecorded := false } :=
  (claim_C6_amended_statuses ⟨"time-report-3.csv", ⟨some requiredHeaders, []⟩⟩
    [] "3" .emptyFile).2.2.2.2.1 (by decide) (by decide) (by decide) (by decide)

/-- C7: the claim — the staged temp file is removed on every exit path — is
what the code intends (every early-return branch unlinks, with a "Clean up
uploaded file" comment), but the `catch` block does not unlink, so the
thrown-error exits leak the artifact.  First conjunct: a `MissingHeaders`
upload leaves the file on disk; second: a storage failure leaves it on disk;
third: the success path does remove it. -/
theorem claim_C7_temp_file_leak :
    (uploadHandler (some ⟨"time-report-11.csv",
        ⟨some ["date", "hours worked", "employee id"],
         [⟨some "05/01/2023", some "8", some "1", some "A", []⟩]⟩⟩)
      [] true).fileDeleted = false ∧
    (uploadHandler (some ⟨"time-report-12.csv",
        ⟨some requiredHeaders,
         [⟨some "05/01/2023", some "8", some "1", some "A", []⟩]⟩⟩)
      [] false).fileDeleted = false ∧
    (uploadHandler (some ⟨"time-report-12.csv",
        ⟨some requiredHeaders,
         [⟨some "05/01/2023", some "8", some "1", some "A", []⟩]⟩⟩)
      [] true).fileDeleted = true := by
  decide

/-- C8 counterexample: `payroll.txt` has a base name that does not match
`time-report-<digits>`, and its extension is not `.csv`; the handler answers
`UnsupportedFileType` (`Only CSV files are allowed`), not
`InvalidFilenameFormat` — the extension check runs first, refuting the
claimed order. -/
theorem claim_C8_counterexample :
    matchTimeReport (basenameCsv "payroll.txt") = none ∧
    uploadHandler (some ⟨"payroll.txt", ⟨some requiredHeaders,
        [⟨some "05/01/2023", some "8", some "1", some "A", []⟩]⟩⟩) [] true =
      { status := 400, body := "Only CSV files are allowed", fileDeleted := true,
        persisted := [], reportRecorded := false } ∧
    ("Only CSV files are allowed" : String)
      ≠ "Invalid file name format. Expected format: time-report-x.csv" := by
  decide

/-- C8 (amended): the extension check precedes filename validation: any
non-`.csv` extension fails with `UnsupportedFileType` regardless of the base
name, and `InvalidFilenameFormat` is returned exactly for `.csv` files whose
base name does not match `time-report-<digits>`. -/
theorem claim_C8_amended_order (f : UploadFile) (existing : List String) (ok : Bool) :
    (jsToLower (jsExtname f.originalname) ≠ ".csv" →
      uploadHandler (some f) existing ok =
        { status := 400, body := "Only CSV files are allowed", fileDeleted := true,
          persisted := [], reportRecorded := false }) ∧
    (jsToLower (jsExtname f.originalname) = ".csv" →
      matchTimeReport (basenameCsv f.originalname) = none →
      uploadHandler (some f) existing ok =
        { status := 400,
          body := "Invalid file name format. Expected format: time-report-x.csv",
          fileDeleted := true, persisted := [], reportRecorded := false }) := by
  constructor
  · intro h
    simp only [uploadHandler]
    rw [if_pos h]
  · intro h1 h2
    simp [uploadHandler, h1, h2]

/-- C8-amended witness: `time-report.csv` (no digits) is a `.csv` file with a
non-matching base name and gets `InvalidFilenameFormat`. -/
theorem claim_C8_witness :
    uploadHandler (some ⟨"time-report.csv", ⟨some requiredHeaders, []⟩⟩) [] true =
      { status := 400,
        body := "Invalid file name format. Expected format: time-report-x.csv",
        fileDeleted := true, persisted := [], reportRecorded := false } :=
  (claim_C8_amended_order ⟨"time-report.csv", ⟨some requiredHeaders, []⟩⟩ [] true).2
    (by decide) (by decide)

/-- C10: report identifiers are the captured digit strings compared as
strings: `time-report-1.csv` and `time-report-01.csv` yield the distinct
identifiers `"1"` and `"01"` (numerically equal under JS coercion), so with
`"1"` already stored, uploading `time-report-01.csv` is not rejected as a
duplicate — it succeeds as a second report. -/
theorem claim_C10_report_ids_are_strings :
    matchTimeReport (basenameCsv "time-report-1.csv") = some "1" ∧
    matchTimeReport (basenameCsv "time-report-01.csv") = some "01" ∧
    ("1" : String) ≠ "01" ∧
    jsStrNum "1" = jsStrNum "01" ∧
    uploadHandler (some ⟨"time-report-01.csv", ⟨some requiredHeaders,
        [⟨some "05/01/2023", some "8", some "1", some "A", []⟩]⟩⟩) ["1"] true =
      { status := 201, body := "File uploaded and data stored successfully",
        fileDeleted := true, persisted := [⟨"2023-01-05", "8", "1", "A"⟩],
        reportRecorded := true } := by
  decide

end Payroll
